import Mathlib

/-!
# Verification of the quickhull convex-hull core of the UMD repository

This development is a shallow embedding, in Lean 4, of the convex-hull
(quickhull) core of `src/three-extras.umd.js`: the classes `ConvexHull`,
`Face`, `HalfEdge`, `VertexNode` and `VertexList`.

Modelling conventions:

* JavaScript `number` arithmetic is modelled by exact rational arithmetic
  (`ℚ`).  `Number.EPSILON` becomes the rational constant `machineEps = 2⁻⁵²`.
* The source normalises triangle and plane normals to unit length
  (`Vector3.normalize`, which divides by a Euclidean length, i.e. a square
  root).  Square roots are not available in `ℚ`, so normals are modelled by
  the *unnormalised* cross product.  Normalisation is a positive rescaling
  of the same vector, so every sign test and every argmax selection the
  algorithm performs is unchanged; only the absolute scale of signed
  distances differs.  Each definition affected carries a note.
* The mutable object graph (vertex nodes, half-edges, faces referencing one
  another) is modelled as a heap: vertices, half-edges and faces live in
  three append-only stores (`List` indexed by `Nat` ids), and every object
  reference of the source becomes an id.  Field mutation becomes a
  functional update of the store entry.
* Unbounded loops that chase `next`/`twin` pointers take an explicit fuel
  argument and return `Option`; `none` means the fuel ran out (which never
  happens on well-formed states given enough fuel).
* A JavaScript crash (dereferencing `null`/`undefined`, or indexing a
  missing object) is modelled by `Option`/a no-op, as noted per definition.
-/

namespace UMD

/-- `Number.EPSILON` of JavaScript, i.e. `2⁻⁵²`. -/
def machineEps : ℚ := 1 / 2 ^ 52

/-- A 3D vector with exact rational coordinates (models `THREE.Vector3`). -/
structure Vec3 where
  x : ℚ
  y : ℚ
  z : ℚ
deriving DecidableEq, Repr

namespace Vec3

/-- Componentwise addition. -/
def add (a b : Vec3) : Vec3 := ⟨a.x + b.x, a.y + b.y, a.z + b.z⟩

/-- Componentwise subtraction (`Vector3.sub`). -/
def sub (a b : Vec3) : Vec3 := ⟨a.x - b.x, a.y - b.y, a.z - b.z⟩

/-- Scalar multiplication (`Vector3.multiplyScalar`). -/
def smul (k : ℚ) (a : Vec3) : Vec3 := ⟨k * a.x, k * a.y, k * a.z⟩

/-- Dot product (`Vector3.dot`). -/
def dot (a b : Vec3) : ℚ := a.x * b.x + a.y * b.y + a.z * b.z

/-- Cross product (`Vector3.cross`). -/
def cross (a b : Vec3) : Vec3 :=
  ⟨a.y * b.z - a.z * b.y, a.z * b.x - a.x * b.z, a.x * b.y - a.y * b.x⟩

/-- Squared Euclidean distance (`Vector3.distanceToSquared`). -/
def distanceToSquared (a b : Vec3) : ℚ :=
  (a.x - b.x) ^ 2 + (a.y - b.y) ^ 2 + (a.z - b.z) ^ 2

/-- `Vector3.getComponent` for indices 0, 1, 2. -/
def get (a : Vec3) : Nat → ℚ
  | 0 => a.x
  | 1 => a.y
  | _ => a.z

/-- `Vector3.setComponent` for indices 0, 1, 2. -/
def set (a : Vec3) : Nat → ℚ → Vec3
  | 0, v => { a with x := v }
  | 1, v => { a with y := v }
  | _, v => { a with z := v }

end Vec3

/-- `Ray.at(t, target)`: the point `origin + t · direction`. -/
def rayAt (origin direction : Vec3) (t : ℚ) : Vec3 :=
  origin.add (Vec3.smul t direction)

/-- The normal direction `THREE.Triangle.getNormal` computes for the triangle
`(a, b, c)`: the cross product `(c − b) × (a − b)`.  The source additionally
normalises this vector to unit length; that normalisation divides by a square
root, which does not exist in `ℚ`, and is a positive rescaling that changes no
sign test or argmax used by the algorithm. -/
def triNormal (a b c : Vec3) : Vec3 :=
  (c.sub b).cross (a.sub b)

/-- `THREE.Triangle.getMidpoint`: the centroid `(a + b + c) / 3`. -/
def triMidpoint (a b c : Vec3) : Vec3 :=
  Vec3.smul (1 / 3) ((a.add b).add c)

/-- `THREE.Line3.closestPointToPoint(p, clampToLine = true)` for the segment
from `a` to `b`: the parameter `t = (p − a)·(b − a) / (b − a)·(b − a)` clamped
to `[0, 1]`, evaluated on the segment.  When `a = b` the source divides by
zero (yielding `NaN`); here `ℚ` division by zero yields `0`, a case that only
arises for degenerate inputs. -/
def lineClosestPoint (a b p : Vec3) : Vec3 :=
  let d := b.sub a
  let t := ((p.sub a).dot d) / d.dot d
  let t := max 0 (min 1 t)
  a.add (Vec3.smul t d)

/-- `THREE.Plane.setFromCoplanarPoints(a, b, c)`: normal direction
`(c − b) × (a − b)` and constant `−normal·a`.  The source normalises the
normal (a square root); see the note on `triNormal`. -/
def planeFromCoplanarPoints (a b c : Vec3) : Vec3 × ℚ :=
  let n := (c.sub b).cross (a.sub b)
  (n, -(n.dot a))

/-- `THREE.Plane.distanceToPoint`: `normal·p + constant`. -/
def planeDistanceToPoint (pl : Vec3 × ℚ) (p : Vec3) : ℚ :=
  pl.1.dot p + pl.2

/-! ## The heap

Vertex nodes, half-edges and faces are mutable, mutually referencing objects
in the source.  They are modelled as entries of three stores indexed by
`Nat` ids; a JavaScript object reference becomes an id, `null` becomes
`none`. -/

/-- Id of a `VertexNode` in the vertex store. -/
abbrev VId := Nat

/-- Id of a `HalfEdge` in the edge store. -/
abbrev EId := Nat

/-- Id of a `Face` in the face store. -/
abbrev FId := Nat

/-- The `Visible` / `Deleted` face marks of the source. -/
inductive Mark where
  | Visible
  | Deleted
deriving DecidableEq, Repr

/-- The fields of a `VertexNode`: the wrapped point, the `prev`/`next` links
of the doubly linked vertex list, and the `face` back reference. -/
structure VNode where
  point : Vec3
  prev : Option VId := none
  next : Option VId := none
  face : Option FId := none
deriving DecidableEq, Repr

/-- The fields of a `HalfEdge`: destination `vertex`, `prev`/`next` within
the face, `twin` on the neighbouring face, and the owning `face`. -/
structure HalfEdgeRec where
  vertex : VId
  prev : Option EId := none
  next : Option EId := none
  twin : Option EId := none
  face : FId
deriving DecidableEq, Repr

/-- The fields of a `Face`.  The source additionally stores `area` (half the
Euclidean norm of a cross product, i.e. a square root not available in `ℚ`);
`area` is written by `Face.compute` and read by no code in the repository,
so it is omitted here. -/
structure FaceRec where
  normal : Vec3 := ⟨0, 0, 0⟩
  midpoint : Vec3 := ⟨0, 0, 0⟩
  constant : ℚ := 0
  outside : Option VId := none
  mark : Mark := Mark.Visible
  edge : Option EId := none
deriving DecidableEq, Repr

/-- The `head`/`tail` pair of a `VertexList`. -/
structure VertexListRef where
  head : Option VId := none
  tail : Option VId := none
deriving DecidableEq, Repr

/-- The instance state of a `ConvexHull` object, together with the heap
(the three stores) its object references point into.  Defaults give the
state established by the `ConvexHull` constructor. -/
structure HullState where
  tolerance : ℚ := -1
  faces : List FId := []
  newFaces : List FId := []
  assigned : VertexListRef := {}
  unassigned : VertexListRef := {}
  vertices : List VId := []
  verts : List VNode := []
  faceStore : List FaceRec := []
  edgeStore : List HalfEdgeRec := []
deriving DecidableEq, Repr

/-- The state of a freshly constructed `ConvexHull`. -/
def ConvexHull.init : HullState := {}

/-- Update the fields of vertex node `v` in a vertex store.  A dangling id
(a `null` dereference in the source, which would throw) is a no-op. -/
def updNode (verts : List VNode) (v : VId) (f : VNode → VNode) : List VNode :=
  match verts[v]? with
  | some n => verts.set v (f n)
  | none => verts

/-- Update the fields of vertex node `v` in a hull state. -/
def HullState.updV (s : HullState) (v : VId) (f : VNode → VNode) : HullState :=
  { s with verts := updNode s.verts v f }

/-- Update the fields of face `fid` in a hull state; dangling id is a no-op. -/
def HullState.updFace (s : HullState) (fid : FId) (f : FaceRec → FaceRec) : HullState :=
  match s.faceStore[fid]? with
  | some r => { s with faceStore := s.faceStore.set fid (f r) }
  | none => s

/-- Update the fields of half-edge `e` in a hull state; dangling id is a no-op. -/
def HullState.updEdge (s : HullState) (e : EId) (f : HalfEdgeRec → HalfEdgeRec) : HullState :=
  match s.edgeStore[e]? with
  | some r => { s with edgeStore := s.edgeStore.set e (f r) }
  | none => s

/-- The point wrapped by vertex `v`. -/
def HullState.vpoint (s : HullState) (v : VId) : Option Vec3 :=
  (s.verts[v]?).map (·.point)

/-! ## `VertexList`

The list operations act on a vertex store together with a `head`/`tail`
reference pair, mirroring the methods of the source class line by line. -/

/-- `VertexList.insertBefore(target, vertex)`. -/
def vlInsertBefore (verts : List VNode) (l : VertexListRef) (target vertex : VId) :
    List VNode × VertexListRef :=
  match verts[target]? with
  | none => (verts, l)
  | some tn =>
    let tprev := tn.prev
    let verts := updNode verts vertex (fun n => { n with prev := tprev, next := some target })
    match tprev with
    | none =>
      (updNode verts target (fun n => { n with prev := some vertex }),
       { l with head := some vertex })
    | some p =>
      let verts := updNode verts p (fun n => { n with next := some vertex })
      (updNode verts target (fun n => { n with prev := some vertex }), l)

/-- `VertexList.append(vertex)`. -/
def vlAppend (verts : List VNode) (l : VertexListRef) (vertex : VId) :
    List VNode × VertexListRef :=
  let oldTail := l.tail
  let (verts, l) :=
    match l.head with
    | none => (verts, { l with head := some vertex })
    | some _ =>
      match oldTail with
      | some t => (updNode verts t (fun n => { n with next := some vertex }), l)
      | none => (verts, l)
  let verts := updNode verts vertex (fun n => { n with prev := oldTail, next := none })
  (verts, { l with tail := some vertex })

/-- The `while (vertex.next !== null) vertex = vertex.next` walk of
`VertexList.appendChain`, finding the last node of a chain. -/
def chainLast (verts : List VNode) : Nat → VId → Option VId
  | 0, _ => none
  | fuel + 1, v =>
    match (verts[v]?).bind (·.next) with
    | none => some v
    | some n => chainLast verts fuel n

/-- `VertexList.appendChain(vertex)`. -/
def vlAppendChain (verts : List VNode) (l : VertexListRef) (vertex : VId) (fuel : Nat) :
    Option (List VNode × VertexListRef) :=
  let oldTail := l.tail
  let (verts, l) :=
    match l.head with
    | none => (verts, { l with head := some vertex })
    | some _ =>
      match oldTail with
      | some t => (updNode verts t (fun n => { n with next := some vertex }), l)
      | none => (verts, l)
  let verts := updNode verts vertex (fun n => { n with prev := oldTail })
  match chainLast verts fuel vertex with
  | none => none
  | some last => some (verts, { l with tail := some last })

/-- `VertexList.remove(vertex)`.  The second statement of the source re-reads
`vertex.next` and `vertex.prev` after the first statement's write, so the
model re-reads the node between the two statements. -/
def vlRemove (verts : List VNode) (l : VertexListRef) (vertex : VId) :
    List VNode × VertexListRef :=
  match verts[vertex]? with
  | none => (verts, l)
  | some vn0 =>
    let (verts1, l1) :=
      match vn0.prev with
      | none => (verts, { l with head := vn0.next })
      | some p => (updNode verts p (fun n => { n with next := vn0.next }), l)
    match verts1[vertex]? with
    | none => (verts1, l1)
    | some vn1 =>
      match vn1.next with
      | none => (verts1, { l1 with tail := vn1.prev })
      | some nx => (updNode verts1 nx (fun n => { n with prev := vn1.prev }), l1)

/-- `VertexList.removeSubList(a, b)`, again with live re-reads between the
two statements. -/
def vlRemoveSubList (verts : List VNode) (l : VertexListRef) (a b : VId) :
    List VNode × VertexListRef :=
  match verts[a]?, verts[b]? with
  | some an, some bn =>
    let (verts1, l1) :=
      match an.prev with
      | none => (verts, { l with head := bn.next })
      | some p => (updNode verts p (fun n => { n with next := bn.next }), l)
    match verts1[a]?, verts1[b]? with
    | some an1, some bn1 =>
      (match bn1.next with
       | none => (verts1, { l1 with tail := an1.prev })
       | some nx => (updNode verts1 nx (fun n => { n with prev := an1.prev }), l1))
    | _, _ => (verts1, l1)
  | _, _ => (verts, l)

/-- `VertexList.clear()`. -/
def vlClear : VertexListRef := {}

/-! ## `HalfEdge` and `Face` operations -/

/-- `HalfEdge.head()`: the edge's destination vertex. -/
def halfEdgeHead (s : HullState) (e : EId) : Option VId :=
  (s.edgeStore[e]?).map (·.vertex)

/-- `HalfEdge.tail()`: the previous edge's vertex, or `none` when `prev` is
unset (the source returns `null`). -/
def halfEdgeTail (s : HullState) (e : EId) : Option VId := do
  let er ← s.edgeStore[e]?
  let p ← er.prev
  halfEdgeHead s p

/-- `HalfEdge.setTwin(edge)`: sets both twin references. -/
def setTwin (s : HullState) (e1 e2 : EId) : HullState :=
  let s := s.updEdge e1 (fun r => { r with twin := some e2 })
  s.updEdge e2 (fun r => { r with twin := some e1 })

/-- `Face.distanceToPoint(point)`: the signed scalar
`normal · point − constant`. -/
def faceDistanceToPoint (f : FaceRec) (p : Vec3) : ℚ :=
  f.normal.dot p - f.constant

/-- Walk `i` steps along `next` (the `while (i > 0)` loop of `Face.getEdge`). -/
def getEdgeNext (s : HullState) : EId → Nat → Option EId
  | e, 0 => some e
  | e, i + 1 => do getEdgeNext s (← (← s.edgeStore[e]?).next) i

/-- Walk `i` steps along `prev` (the `while (i < 0)` loop of `Face.getEdge`). -/
def getEdgePrev (s : HullState) : EId → Nat → Option EId
  | e, 0 => some e
  | e, i + 1 => do getEdgePrev s (← (← s.edgeStore[e]?).prev) i

/-- `Face.getEdge(i)`: the `i`-th half-edge reached from the face's base
edge, walking `next` for positive and `prev` for negative indices. -/
def faceGetEdge (s : HullState) (fid : FId) (i : Int) : Option EId := do
  let fr ← s.faceStore[fid]?
  let e0 ← fr.edge
  if 0 ≤ i then getEdgeNext s e0 i.toNat else getEdgePrev s e0 (-i).toNat

/-- `Face.compute()`: reads the triangle corners `a = edge.tail()`,
`b = edge.head()`, `c = edge.next.head()` and sets `normal`, `midpoint` and
`constant = normal · midpoint` (the unread `area` field is omitted, and the
normal is the unnormalised one; see `triNormal`). -/
def faceCompute (s : HullState) (fid : FId) : Option HullState := do
  let fr ← s.faceStore[fid]?
  let e0 ← fr.edge
  let va ← halfEdgeTail s e0
  let vb ← halfEdgeHead s e0
  let e1 ← (← s.edgeStore[e0]?).next
  let vc ← halfEdgeHead s e1
  let pa ← s.vpoint va
  let pb ← s.vpoint vb
  let pc ← s.vpoint vc
  let n := triNormal pa pb pc
  let m := triMidpoint pa pb pc
  some (s.updFace fid (fun r => { r with normal := n, midpoint := m, constant := n.dot m }))

/-- `Face.create(a, b, c)`: allocates a face and its three half-edges,
joins the edges into the `next`/`prev` cycle `e0 → e1 → e2 → e0` (leaving
all twins unset), sets the face's base edge to `e0`, and runs
`Face.compute`. -/
def faceCreate (s : HullState) (a b c : VId) : Option (HullState × FId) := do
  let fid := s.faceStore.length
  let n := s.edgeStore.length
  let e0 : HalfEdgeRec := { vertex := a, face := fid, next := some (n + 1), prev := some (n + 2) }
  let e1 : HalfEdgeRec := { vertex := b, face := fid, next := some (n + 2), prev := some n }
  let e2 : HalfEdgeRec := { vertex := c, face := fid, next := some n, prev := some (n + 1) }
  let s := { s with
    faceStore := s.faceStore ++ [{ edge := some n }],
    edgeStore := s.edgeStore ++ [e0, e1, e2] }
  let s ← faceCompute s fid
  some (s, fid)

/-! ## `ConvexHull`: query surface -/

/-- The `for` loop of `ConvexHull.containsPoint`: returns `false` as soon as
a face sees the point beyond `tolerance`, `true` after the last face.  A
dangling face id (impossible in states built by the algorithm) is skipped. -/
def containsPointLoop (s : HullState) (p : Vec3) : List FId → Bool
  | [] => true
  | fid :: rest =>
    match s.faceStore[fid]? with
    | none => containsPointLoop s p rest
    | some f =>
      if faceDistanceToPoint f p > s.tolerance then false else containsPointLoop s p rest

/-- `ConvexHull.containsPoint(point)`. -/
def containsPoint (s : HullState) (p : Vec3) : Bool :=
  containsPointLoop s p s.faces

/-- `tNear > tFar` on slab parameters, where `none` means `−Infinity` for
the first argument and `+Infinity` for the second, as in the source's
initial values. -/
def tGtOpt : Option ℚ → Option ℚ → Bool
  | some a, some b => a > b
  | _, _ => false

/-- The `for` loop of `ConvexHull.intersectRay`, carrying the running
`tNear` (`none` = `−Infinity`) and `tFar` (`none` = `+Infinity`).  The outer
`none` models the source's `return null`; `some none` models the degenerate
`ray.at(±Infinity)` result (a vector of infinities in JavaScript) that
arises only when every face was skipped. -/
def intersectRayLoop (s : HullState) (origin dir : Vec3) :
    Option ℚ → Option ℚ → List FId → Option (Option Vec3)
  | tNear, tFar, [] =>
    some (match tNear with
      | some t => some (rayAt origin dir t)
      | none =>
        match tFar with
        | some t => some (rayAt origin dir t)
        | none => none)
  | tNear, tFar, fid :: rest =>
    match s.faceStore[fid]? with
    | none => intersectRayLoop s origin dir tNear tFar rest
    | some f =>
      let vN := faceDistanceToPoint f origin
      let vD := f.normal.dot dir
      if vN > 0 ∧ vD ≥ 0 then none
      else
        let t := if vD ≠ 0 then -vN / vD else 0
        if t ≤ 0 then intersectRayLoop s origin dir tNear tFar rest
        else
          let tNear' := if vD > 0 then tNear else
            some (match tNear with | none => t | some tn => max t tn)
          let tFar' := if vD > 0 then
            some (match tFar with | none => t | some tf => min t tf) else tFar
          if tGtOpt tNear' tFar' then none
          else intersectRayLoop s origin dir tNear' tFar' rest

/-- `ConvexHull.intersectRay(ray, target)`. -/
def intersectRay (s : HullState) (origin dir : Vec3) : Option (Option Vec3) :=
  intersectRayLoop s origin dir none none s.faces

/-- Spec-side vocabulary for `intersectRay`: the per-face definite-miss
test — the ray origin is strictly on the face's outward side while the
direction is turned away from or parallel to it.  (`false` on a dangling
face id, which the loop skips.) -/
def rayMissFaceB (s : HullState) (origin dir : Vec3) (fid : FId) : Bool :=
  match s.faceStore[fid]? with
  | none => false
  | some f => decide (faceDistanceToPoint f origin > 0 ∧ f.normal.dot dir ≥ 0)

/-- Spec-side vocabulary for `intersectRay`: one face's slab update on the
running `(tNear, tFar)` pair — exactly the arithmetic of the loop body past
the miss test, without the early exits. -/
def slabStep (origin dir : Vec3) (f : FaceRec) (acc : Option ℚ × Option ℚ) :
    Option ℚ × Option ℚ :=
  let vN := faceDistanceToPoint f origin
  let vD := f.normal.dot dir
  let t := if vD ≠ 0 then -vN / vD else 0
  if t ≤ 0 then acc
  else
    (if vD > 0 then acc.1 else some (match acc.1 with | none => t | some tn => max t tn),
     if vD > 0 then some (match acc.2 with | none => t | some tf => min t tf) else acc.2)

/-- Spec-side vocabulary for `intersectRay`: the exit-free running
`(tNear, tFar)` over a face list. -/
def slabFold (s : HullState) (origin dir : Vec3) (l : List FId)
    (acc : Option ℚ × Option ℚ) : Option ℚ × Option ℚ :=
  l.foldl (fun acc fid =>
    match s.faceStore[fid]? with
    | none => acc
    | some f => slabStep origin dir f acc) acc

/-- Spec-side vocabulary for `intersectRay`: the point reported for final
slab parameters — at `tNear` when finite, else at `tFar` when finite, else
the degenerate `ray.at(±Infinity)` case (`none`). -/
def slabPoint (origin dir : Vec3) (tp : Option ℚ × Option ℚ) : Option Vec3 :=
  match tp.1 with
  | some t => some (rayAt origin dir t)
  | none =>
    match tp.2 with
    | some t => some (rayAt origin dir t)
    | none => none

/-! ## `ConvexHull`: vertex-to-face bookkeeping -/

/-- `ConvexHull._addVertexToFace(vertex, face)`: sets `vertex.face`,
inserts the vertex into the 'assigned' list (at the end when the face has
no outside vertices yet, otherwise before the face's current `outside`
head), and makes it the face's `outside` head. -/
def addVertexToFace (s : HullState) (v : VId) (f : FId) : HullState :=
  let s := s.updV v (fun n => { n with face := some f })
  let s :=
    match (s.faceStore[f]?).bind (·.outside) with
    | none =>
      let (vs, r) := vlAppend s.verts s.assigned v
      { s with verts := vs, assigned := r }
    | some o =>
      let (vs, r) := vlInsertBefore s.verts s.assigned o v
      { s with verts := vs, assigned := r }
  s.updFace f (fun fr => { fr with outside := some v })

/-- `ConvexHull._removeVertexFromFace(vertex, face)`: fixes the face's
`outside` head if the removed vertex was it, then unlinks the vertex from
the 'assigned' list.  (No vertex's `face` field is written.) -/
def removeVertexFromFace (s : HullState) (v : VId) (f : FId) : HullState :=
  let s :=
    if (s.faceStore[f]?).bind (·.outside) = some v then
      match (s.verts[v]?).bind (·.next) with
      | some nx =>
        if (s.verts[nx]?).bind (·.face) = some f then
          s.updFace f (fun fr => { fr with outside := some nx })
        else
          s.updFace f (fun fr => { fr with outside := none })
      | none => s.updFace f (fun fr => { fr with outside := none })
    else s
  let (vs, r) := vlRemove s.verts s.assigned v
  { s with verts := vs, assigned := r }

/-- The `while (end.next !== null && end.next.face === face)` walk of
`ConvexHull._removeAllVerticesFromFace`, finding the last vertex of the
face's contiguous outside run. -/
def endOfRun (s : HullState) (f : FId) : Nat → VId → Option VId
  | 0, _ => none
  | fuel + 1, e =>
    match (s.verts[e]?).bind (·.next) with
    | some nx =>
      if (s.verts[nx]?).bind (·.face) = some f then endOfRun s f fuel nx else some e
    | none => some e

/-- `ConvexHull._removeAllVerticesFromFace(face)`: detaches the face's whole
outside run from the 'assigned' list and returns its first vertex (the
source returns `undefined` when the face has none). -/
def removeAllVerticesFromFace (s : HullState) (f : FId) (fuel : Nat) :
    Option (HullState × Option VId) :=
  match (s.faceStore[f]?).bind (·.outside) with
  | none => some (s, none)
  | some start => do
    let e ← endOfRun s f fuel start
    let (vs, r) := vlRemoveSubList s.verts s.assigned start e
    let s := { s with verts := vs, assigned := r }
    let s := s.updV e (fun n => { n with next := none })
    let s := s.updV start (fun n => { n with prev := none })
    let s := s.updFace f (fun fr => { fr with outside := none })
    some (s, some start)

/-- The `do … while` loop of the absorbing branch of
`ConvexHull._deleteFaceVertices`: each vertex of the removed chain is
appended to the face that can see it, or to the 'unassigned' list. -/
def absorbLoop (s : HullState) (af : FId) (v : VId) : Nat → Option HullState
  | 0 => none
  | fuel + 1 => do
    let nextV := (s.verts[v]?).bind (·.next)
    let pt ← s.vpoint v
    let fr ← s.faceStore[af]?
    let s :=
      if faceDistanceToPoint fr pt > s.tolerance then
        addVertexToFace s v af
      else
        let (vs, r) := vlAppend s.verts s.unassigned v
        { s with verts := vs, unassigned := r }
    match nextV with
    | none => some s
    | some nv => absorbLoop s af nv fuel

/-- `ConvexHull._deleteFaceVertices(face, absorbingFace)`. -/
def deleteFaceVertices (s : HullState) (f : FId) (absorbingFace : Option FId)
    (fuel : Nat) : Option HullState := do
  let (s, faceVertices) ← removeAllVerticesFromFace s f fuel
  match faceVertices with
  | none => some s
  | some start =>
    match absorbingFace with
    | none => do
      let (vs, r) ← vlAppendChain s.verts s.unassigned start fuel
      some { s with verts := vs, unassigned := r }
    | some af => absorbLoop s af start fuel

/-- The inner `for` loop of `ConvexHull._resolveUnassignedPoints`: the best
visible new face for a point, with the `maxDistance > 1000 * tolerance`
early exit. -/
def bestNewFace (s : HullState) (pt : Vec3) : List FId → ℚ → Option FId → ℚ × Option FId
  | [], maxD, maxF => (maxD, maxF)
  | fid :: rest, maxD, maxF =>
    match s.faceStore[fid]? with
    | none => bestNewFace s pt rest maxD maxF
    | some fr =>
      if fr.mark = Mark.Visible then
        let d := faceDistanceToPoint fr pt
        let (maxD, maxF) := if d > maxD then (d, some fid) else (maxD, maxF)
        if maxD > 1000 * s.tolerance then (maxD, maxF)
        else bestNewFace s pt rest maxD maxF
      else bestNewFace s pt rest maxD maxF

/-- The `do … while` loop of `ConvexHull._resolveUnassignedPoints`. -/
def resolveLoop (s : HullState) (newFaces : List FId) (v : VId) : Nat → Option HullState
  | 0 => none
  | fuel + 1 => do
    let nextV := (s.verts[v]?).bind (·.next)
    let pt ← s.vpoint v
    let maxF := (bestNewFace s pt newFaces s.tolerance none).2
    let s :=
      match maxF with
      | some mf => addVertexToFace s v mf
      | none => s
    match nextV with
    | none => some s
    | some nv => resolveLoop s newFaces nv fuel

/-- `ConvexHull._resolveUnassignedPoints(newFaces)`. -/
def resolveUnassignedPoints (s : HullState) (newFaces : List FId) (fuel : Nat) :
    Option HullState :=
  match s.unassigned.head with
  | none => some s
  | some first => resolveLoop s newFaces first fuel

/-! ## `ConvexHull`: extremes and initial hull -/

/-- Component `j` of a triple of vertex ids (the `minVertices[j]` /
`maxVertices[j]` arrays of the source, which always hold 3 entries). -/
def sel3 (t : VId × VId × VId) : Nat → VId
  | 0 => t.1
  | 1 => t.2.1
  | _ => t.2.2

/-- Update component `j` of a triple of vertex ids. -/
def setSel3 (t : VId × VId × VId) : Nat → VId → VId × VId × VId
  | 0, v => (v, t.2.1, t.2.2)
  | 1, v => (t.1, v, t.2.2)
  | _, v => (t.1, t.2.1, v)

/-- The inner `for (j = 0..2)` loop updating the min coordinates and
`minVertices` in `ConvexHull._computeExtremes`. -/
def updMin3 (mn : Vec3) (mnV : VId × VId × VId) (pt : Vec3) (vid : VId) :
    Vec3 × (VId × VId × VId) :=
  let step := fun (acc : Vec3 × (VId × VId × VId)) (j : Nat) =>
    if pt.get j < acc.1.get j then (acc.1.set j (pt.get j), setSel3 acc.2 j vid) else acc
  List.foldl step (mn, mnV) [0, 1, 2]

/-- The inner `for (j = 0..2)` loop updating the max coordinates and
`maxVertices` in `ConvexHull._computeExtremes`. -/
def updMax3 (mx : Vec3) (mxV : VId × VId × VId) (pt : Vec3) (vid : VId) :
    Vec3 × (VId × VId × VId) :=
  let step := fun (acc : Vec3 × (VId × VId × VId)) (j : Nat) =>
    if pt.get j > acc.1.get j then (acc.1.set j (pt.get j), setSel3 acc.2 j vid) else acc
  List.foldl step (mx, mxV) [0, 1, 2]

/-- The outer vertex loop of `ConvexHull._computeExtremes`. -/
def extremesLoop (s : HullState) :
    List VId → Vec3 × Vec3 × (VId × VId × VId) × (VId × VId × VId) →
    Option (Vec3 × Vec3 × (VId × VId × VId) × (VId × VId × VId))
  | [], acc => some acc
  | vid :: rest, (mn, mx, mnV, mxV) => do
    let pt ← s.vpoint vid
    let (mn, mnV) := updMin3 mn mnV pt vid
    let (mx, mxV) := updMax3 mx mxV pt vid
    extremesLoop s rest (mn, mx, mnV, mxV)

/-- `ConvexHull._computeExtremes()`: computes the componentwise bounding
extremes of `this.vertices`, sets
`tolerance = 3 · machineEps · (max(|min.x|, |max.x|) + max(|min.y|, |max.y|) + max(|min.z|, |max.z|))`,
and returns the extreme vertices per axis. -/
def computeExtremes (s : HullState) :
    Option (HullState × (VId × VId × VId) × (VId × VId × VId)) := do
  let v0 ← s.vertices.head?
  let p0 ← s.vpoint v0
  let (mn, mx, mnV, mxV) ← extremesLoop s s.vertices (p0, p0, (v0, v0, v0), (v0, v0, v0))
  let tol := 3 * machineEps *
    (max |mn.x| |mx.x| + max |mn.y| |mx.y| + max |mn.z| |mx.z|)
  some ({ s with tolerance := tol }, mnV, mxV)

/-- Step 1 of `ConvexHull._computeInitialHull`: the `for (i = 0..2)` loop
choosing the axis of greatest 1D separation (`maxDistance = 0; index = 0`). -/
def sepLoop (s : HullState) (mnV mxV : VId × VId × VId) :
    List Nat → ℚ → Nat → Option (ℚ × Nat)
  | [], maxD, idx => some (maxD, idx)
  | i :: rest, maxD, idx => do
    let pmax ← s.vpoint (sel3 mxV i)
    let pmin ← s.vpoint (sel3 mnV i)
    let d := pmax.get i - pmin.get i
    if d > maxD then sepLoop s mnV mxV rest d i else sepLoop s mnV mxV rest maxD idx

/-- Step 2 of `ConvexHull._computeInitialHull`: the vertex farthest (by
squared distance) from the segment through `v0`, `v1`
(`maxDistance = 0`, `v2` initially undefined). -/
def selectV2 (s : HullState) (v0 v1 : VId) (p0 p1 : Vec3) :
    List VId → ℚ → Option VId → Option (ℚ × Option VId)
  | [], maxD, best => some (maxD, best)
  | vid :: rest, maxD, best =>
    if vid = v0 ∨ vid = v1 then selectV2 s v0 v1 p0 p1 rest maxD best
    else do
      let pt ← s.vpoint vid
      let d := (lineClosestPoint p0 p1 pt).distanceToSquared pt
      if d > maxD then selectV2 s v0 v1 p0 p1 rest d (some vid)
      else selectV2 s v0 v1 p0 p1 rest maxD best

/-- Step 3 of `ConvexHull._computeInitialHull`: the vertex of greatest
absolute signed distance from the plane through `v0`, `v1`, `v2`
(`maxDistance = −1`, `v3` initially undefined). -/
def selectV3 (s : HullState) (v0 v1 v2 : VId) (pl : Vec3 × ℚ) :
    List VId → ℚ → Option VId → Option (ℚ × Option VId)
  | [], maxD, best => some (maxD, best)
  | vid :: rest, maxD, best =>
    if vid = v0 ∨ vid = v1 ∨ vid = v2 then selectV3 s v0 v1 v2 pl rest maxD best
    else do
      let pt ← s.vpoint vid
      let d := |planeDistanceToPoint pl pt|
      if d > maxD then selectV3 s v0 v1 v2 pl rest d (some vid)
      else selectV3 s v0 v1 v2 pl rest maxD best

/-- The tetrahedron face at index `i` of the local `faces` array. -/
def tetraFace (f0 f1 f2 f3 : FId) : Nat → FId
  | 0 => f0
  | 1 => f1
  | 2 => f2
  | _ => f3

/-- The twin-wiring `for (i = 0..2)` loop of the first branch of
`ConvexHull._computeInitialHull` (plane cannot see `v3`):
`faces[i+1].getEdge(2).setTwin(faces[0].getEdge(j))` and
`faces[i+1].getEdge(1).setTwin(faces[j+1].getEdge(0))` with `j = (i+1) % 3`. -/
def tetraWireA (s : HullState) (f0 f1 f2 f3 : FId) : List Nat → Option HullState
  | [] => some s
  | i :: rest => do
    let j := (i + 1) % 3
    let a ← faceGetEdge s (tetraFace f0 f1 f2 f3 (i + 1)) 2
    let b ← faceGetEdge s (tetraFace f0 f1 f2 f3 0) j
    let s := setTwin s a b
    let a ← faceGetEdge s (tetraFace f0 f1 f2 f3 (i + 1)) 1
    let b ← faceGetEdge s (tetraFace f0 f1 f2 f3 (j + 1)) 0
    let s := setTwin s a b
    tetraWireA s f0 f1 f2 f3 rest

/-- The twin-wiring `for (i = 0..2)` loop of the second branch of
`ConvexHull._computeInitialHull` (plane can see `v3`):
`faces[i+1].getEdge(2).setTwin(faces[0].getEdge((3−i) % 3))` and
`faces[i+1].getEdge(0).setTwin(faces[j+1].getEdge(1))` with `j = (i+1) % 3`. -/
def tetraWireB (s : HullState) (f0 f1 f2 f3 : FId) : List Nat → Option HullState
  | [] => some s
  | i :: rest => do
    let j := (i + 1) % 3
    let a ← faceGetEdge s (tetraFace f0 f1 f2 f3 (i + 1)) 2
    let b ← faceGetEdge s (tetraFace f0 f1 f2 f3 0) ((3 - i) % 3 : Nat)
    let s := setTwin s a b
    let a ← faceGetEdge s (tetraFace f0 f1 f2 f3 (i + 1)) 0
    let b ← faceGetEdge s (tetraFace f0 f1 f2 f3 (j + 1)) 1
    let s := setTwin s a b
    tetraWireB s f0 f1 f2 f3 rest

/-- The inner `for (j = 0..3)` loop of the initial vertex assignment in
`ConvexHull._computeInitialHull`: the face of the tetrahedron whose plane
the point lies most outside of, starting from `maxDistance = tolerance`. -/
def bestOf (s : HullState) (pt : Vec3) : List FId → ℚ → Option FId → Option (ℚ × Option FId)
  | [], maxD, best => some (maxD, best)
  | fid :: rest, maxD, best => do
    let fr ← s.faceStore[fid]?
    let d := faceDistanceToPoint fr pt
    if d > maxD then bestOf s pt rest d (some fid)
    else bestOf s pt rest maxD best

/-- The outer vertex loop of the initial assignment in
`ConvexHull._computeInitialHull`. -/
def initialAssign (s : HullState) (ex : VId × VId × VId × VId) :
    List VId → Option HullState
  | [] => some s
  | vid :: rest =>
    if vid = ex.1 ∨ vid = ex.2.1 ∨ vid = ex.2.2.1 ∨ vid = ex.2.2.2 then
      initialAssign s ex rest
    else do
      let pt ← s.vpoint vid
      let (_, maxF) ← bestOf s pt s.faces s.tolerance none
      let s :=
        match maxF with
        | some f => addVertexToFace s vid f
        | none => s
      initialAssign s ex rest

/-- The first branch of `ConvexHull._computeInitialHull` (the plane through
`v0, v1, v2` cannot see `v3`, so its normal points outward): create the four
tetrahedron faces in the source's order and run the first twin-wiring loop. -/
def tetraBuildA (s : HullState) (v0 v1 v2 v3 : VId) :
    Option (HullState × (FId × FId × FId × FId)) := do
  let (s, f0) ← faceCreate s v0 v1 v2
  let (s, f1) ← faceCreate s v3 v1 v0
  let (s, f2) ← faceCreate s v3 v2 v1
  let (s, f3) ← faceCreate s v3 v0 v2
  let s ← tetraWireA s f0 f1 f2 f3 [0, 1, 2]
  some (s, (f0, f1, f2, f3))

/-- The second branch of `ConvexHull._computeInitialHull` (the plane can see
`v3`, so its normal points inward): create the four tetrahedron faces with
the opposite winding and run the second twin-wiring loop. -/
def tetraBuildB (s : HullState) (v0 v1 v2 v3 : VId) :
    Option (HullState × (FId × FId × FId × FId)) := do
  let (s, f0) ← faceCreate s v0 v2 v1
  let (s, f1) ← faceCreate s v3 v0 v1
  let (s, f2) ← faceCreate s v3 v1 v2
  let (s, f3) ← faceCreate s v3 v2 v0
  let s ← tetraWireB s f0 f1 f2 f3 [0, 1, 2]
  some (s, (f0, f1, f2, f3))

/-- `ConvexHull._computeInitialHull()`. -/
def computeInitialHull (s : HullState) : Option HullState := do
  let (s, mnV, mxV) ← computeExtremes s
  let (_, index) ← sepLoop s mnV mxV [0, 1, 2] 0 0
  let v0 := sel3 mnV index
  let v1 := sel3 mxV index
  let p0 ← s.vpoint v0
  let p1 ← s.vpoint v1
  let (_, ov2) ← selectV2 s v0 v1 p0 p1 s.vertices 0 none
  let v2 ← ov2
  let p2 ← s.vpoint v2
  let pl := planeFromCoplanarPoints p0 p1 p2
  let (_, ov3) ← selectV3 s v0 v1 v2 pl s.vertices (-1) none
  let v3 ← ov3
  let p3 ← s.vpoint v3
  let (s, fs) ←
    if planeDistanceToPoint pl p3 < 0 then tetraBuildA s v0 v1 v2 v3
    else tetraBuildB s v0 v1 v2 v3
  let s := { s with faces := s.faces ++ [fs.1, fs.2.1, fs.2.2.1, fs.2.2.2] }
  initialAssign s (v0, v1, v2, v3) s.vertices

/-! ## `ConvexHull`: the iteration -/

/-- `ConvexHull._reindexFaces()`: keep only the `Visible` faces. -/
def reindexFaces (s : HullState) : HullState :=
  { s with faces :=
      s.faces.filter (fun fid => (s.faceStore[fid]?).map (·.mark) = some Mark.Visible) }

/-- `ConvexHull._cleanup()`. -/
def cleanup (s : HullState) : HullState :=
  { s with assigned := vlClear, unassigned := vlClear, newFaces := [] }

/-- `ConvexHull.makeEmpty()`. -/
def makeEmpty (s : HullState) : HullState :=
  { s with faces := [], vertices := [] }

/-- The `do … while (vertex !== null && vertex.face === eyeFace)` scan of
`ConvexHull._nextVertexToAdd` over the eye face's outside run, keeping the
vertex of greatest distance (`maxDistance = 0`, strict `>`, `eyeVertex`
initially undefined). -/
def nextScan (s : HullState) (eyeFace : FId) : Nat → VId → ℚ → Option VId → Option (Option VId)
  | 0, _, _, _ => none
  | fuel + 1, v, maxD, eye => do
    let pt ← s.vpoint v
    let fr ← s.faceStore[eyeFace]?
    let d := faceDistanceToPoint fr pt
    let (maxD, eye) := if d > maxD then (d, some v) else (maxD, eye)
    match (s.verts[v]?).bind (·.next) with
    | some nx =>
      if (s.verts[nx]?).bind (·.face) = some eyeFace then nextScan s eyeFace fuel nx maxD eye
      else some eye
    | none => some eye

/-- `ConvexHull._nextVertexToAdd()`.  The outer `none` is fuel exhaustion;
the inner `Option` is the source's return value (`undefined` when the
'assigned' list is empty, or when no vertex of the run had positive
distance). -/
def nextVertexToAdd (s : HullState) (fuel : Nat) : Option (Option VId) :=
  match s.assigned.head with
  | none => some none
  | some first => do
    let eyeFace ← (s.verts[first]?).bind (·.face)
    let start ← (s.faceStore[eyeFace]?).bind (·.outside)
    nextScan s eyeFace fuel start 0 none

/-- A pending call in the recursion of `ConvexHull._computeHorizon`:
`enter crossEdge face` is the body of `_computeHorizon` itself, and
`loop cross edge` is its inner `do … while (edge !== crossEdge)` loop. -/
inductive HorizonCall where
  | enter (crossEdge : Option EId) (f : FId)
  | loop (cross : EId) (edge : EId)
deriving DecidableEq, Repr

/-- `ConvexHull._computeHorizon(eyePoint, crossEdge, face, horizon)` and its
inner `do … while` loop, written as one fuelled recursion over the two call
shapes.  The `enter` case moves the face's outside vertices to 'unassigned',
marks the face `Deleted`, and starts the boundary walk; the `loop` case
inspects the face across each edge's twin — a still-`Visible` neighbour that
can see the eye point beyond `tolerance` is recursed into, otherwise the
edge joins the horizon list. -/
def horizonRun (eyePoint : Vec3) : Nat → HullState → List EId → HorizonCall →
    Option (HullState × List EId)
  | 0, _, _, _ => none
  | fuel + 1, s, horizon, .enter crossEdge f => do
    let s ← deleteFaceVertices s f none fuel
    let s := s.updFace f (fun fr => { fr with mark := Mark.Deleted })
    match crossEdge with
    | none => do
      let e ← faceGetEdge s f 0
      horizonRun eyePoint fuel s horizon (.loop e e)
    | some ce => do
      let e ← (s.edgeStore[ce]?).bind (·.next)
      horizonRun eyePoint fuel s horizon (.loop ce e)
  | fuel + 1, s, horizon, .loop cross edge => do
    let twinEdge ← (s.edgeStore[edge]?).bind (·.twin)
    let oppFace ← (s.edgeStore[twinEdge]?).map (·.face)
    let (s, horizon) ←
      match s.faceStore[oppFace]? with
      | some ofr =>
        if ofr.mark = Mark.Visible then
          if faceDistanceToPoint ofr eyePoint > s.tolerance then
            horizonRun eyePoint fuel s horizon (.enter (some twinEdge) oppFace)
          else some (s, horizon ++ [edge])
        else some (s, horizon)
      | none => some (s, horizon)
    let nx ← (s.edgeStore[edge]?).bind (·.next)
    if nx = cross then some (s, horizon)
    else horizonRun eyePoint fuel s horizon (.loop cross nx)

/-- `ConvexHull._computeHorizon(eyePoint, crossEdge, face, horizon)`. -/
def computeHorizon (s : HullState) (eyePoint : Vec3) (crossEdge : Option EId) (f : FId)
    (horizon : List EId) (fuel : Nat) : Option (HullState × List EId) :=
  horizonRun eyePoint fuel s horizon (.enter crossEdge f)

/-- `ConvexHull._addAdjoiningFace(eyeVertex, horizonEdge)`: builds the face
`(eyeVertex, horizonEdge.tail(), horizonEdge.head())`, pushes it onto
`this.faces`, twins its closing edge with the horizon edge's twin, and
returns the side edge whose vertex is the eye vertex. -/
def addAdjoiningFace (s : HullState) (eyeVertex : VId) (horizonEdge : EId) :
    Option (HullState × EId) := do
  let tl ← halfEdgeTail s horizonEdge
  let hd ← halfEdgeHead s horizonEdge
  let (s, f) ← faceCreate s eyeVertex tl hd
  let s := { s with faces := s.faces ++ [f] }
  let em1 ← faceGetEdge s f (-1)
  let htwin ← (s.edgeStore[horizonEdge]?).bind (·.twin)
  let s := setTwin s em1 htwin
  let e0 ← faceGetEdge s f 0
  some (s, e0)

/-- The `for` loop of `ConvexHull._addNewFaces`, threading
`firstSideEdge`/`previousSideEdge` and pushing each new face onto
`this.newFaces`. -/
def addNewFacesLoop (s : HullState) (eyeVertex : VId) :
    List EId → Option EId → Option EId → Option (HullState × Option EId × Option EId)
  | [], first, prevSide => some (s, first, prevSide)
  | he :: rest, first, prevSide => do
    let (s, sideEdge) ← addAdjoiningFace s eyeVertex he
    let (s, first) ←
      match first with
      | none => some (s, some sideEdge)
      | some fse => do
        let sn ← (s.edgeStore[sideEdge]?).bind (·.next)
        let ps ← prevSide
        some (setTwin s sn ps, some fse)
    let f ← (s.edgeStore[sideEdge]?).map (·.face)
    let s := { s with newFaces := s.newFaces ++ [f] }
    addNewFacesLoop s eyeVertex rest first (some sideEdge)

/-- `ConvexHull._addNewFaces(eyeVertex, horizon)`. -/
def addNewFaces (s : HullState) (eyeVertex : VId) (horizon : List EId) :
    Option HullState := do
  let s := { s with newFaces := [] }
  let (s, first, prevSide) ← addNewFacesLoop s eyeVertex horizon none none
  let fse ← first
  let ps ← prevSide
  let sn ← (s.edgeStore[fse]?).bind (·.next)
  some (setTwin s sn ps)

/-- The prefix of `ConvexHull._addVertexToHull(eyeVertex)` up to and
including the `_removeVertexFromFace(eyeVertex, eyeVertex.face)` call:
clears the 'unassigned' list and unlinks the eye vertex from 'assigned' so
that it cannot be moved to 'unassigned' by the horizon computation. -/
def addVertexToHullPrefix (s : HullState) (eyeVertex : VId) : Option HullState := do
  let s := { s with unassigned := vlClear }
  let ef ← (s.verts[eyeVertex]?).bind (·.face)
  some (removeVertexFromFace s eyeVertex ef)

/-- `ConvexHull._addVertexToHull(eyeVertex)`. -/
def addVertexToHull (s : HullState) (eyeVertex : VId) (fuel : Nat) :
    Option HullState := do
  let s ← addVertexToHullPrefix s eyeVertex
  let pt ← s.vpoint eyeVertex
  let ef2 ← (s.verts[eyeVertex]?).bind (·.face)
  let (s, horizon) ← computeHorizon s pt none ef2 [] fuel
  let s ← addNewFaces s eyeVertex horizon
  resolveUnassignedPoints s s.newFaces fuel

/-- The `while ((vertex = this._nextVertexToAdd()) !== undefined)` loop of
`ConvexHull._compute`, followed by re-indexing and cleanup. -/
def computeLoop (s : HullState) : Nat → Option HullState
  | 0 => none
  | fuel + 1 => do
    let r ← nextVertexToAdd s fuel
    match r with
    | none => some (cleanup (reindexFaces s))
    | some v => do
      let s ← addVertexToHull s v fuel
      computeLoop s fuel

/-- `ConvexHull._compute()`. -/
def compute (s : HullState) (fuel : Nat) : Option HullState := do
  let s ← computeInitialHull s
  computeLoop s fuel

/-- The state `ConvexHull.setFromPoints` builds before calling
`this._compute()`: the result of `makeEmpty()` followed by pushing a fresh
`VertexNode` per input point onto `this.vertices` (fresh node allocation is
modelled by appending to the vertex store). -/
def hullStart (s : HullState) (points : List Vec3) : HullState :=
  let s := makeEmpty s
  let base := s.verts.length
  let nodes := points.map (fun p => ({ point := p } : VNode))
  { s with
    verts := s.verts ++ nodes,
    vertices := s.vertices ++ (List.range points.length).map (· + base) }

/-- `ConvexHull.setFromPoints(points)`: with at least 4 points, resets the
hull, wraps every point in a fresh `VertexNode`, and runs the algorithm;
with fewer than 4 points the guard skips everything and the instance is
returned unchanged. -/
def setFromPoints (s : HullState) (points : List Vec3) (fuel : Nat) : Option HullState :=
  if points.length ≥ 4 then
    compute (hullStart s points) fuel
  else
    some s

/-! ## Sample inputs used by witnesses and counterexamples -/

/-- Four affinely independent points: a right tetrahedron with legs of
length 4 at the origin. -/
def tetPoints : List Vec3 := [⟨0, 0, 0⟩, ⟨4, 0, 0⟩, ⟨0, 4, 0⟩, ⟨0, 0, 4⟩]

/-- The tetrahedron corners together with the point `(3, 3, 3)`, which lies
outside the oblique face `x + y + z = 4`; the run on these five points
performs exactly one vertex insertion. -/
def fivePoints : List Vec3 := tetPoints ++ [⟨3, 3, 3⟩]

/-! ## Elementary store lemmas -/

theorem updNode_length (verts : List VNode) (v : VId) (g : VNode → VNode) :
    (updNode verts v g).length = verts.length := by
  unfold updNode
  cases verts[v]? <;> simp

theorem updNode_getElem_ne (verts : List VNode) (v w : VId) (g : VNode → VNode)
    (h : v ≠ w) : (updNode verts v g)[w]? = verts[w]? := by
  unfold updNode
  cases verts[v]? <;> simp [List.getElem?_set_ne h]

theorem updNode_getElem_self (verts : List VNode) (v : VId) (g : VNode → VNode)
    (n : VNode) (h : verts[v]? = some n) : (updNode verts v g)[v]? = some (g n) := by
  unfold updNode
  rw [h]
  exact List.getElem?_set_self (List.getElem?_eq_some.mp h).1

/-- `updNode` with a function that does not write the `face` field leaves
the list of `face` fields unchanged. -/
theorem updNode_faces (verts : List VNode) (v : VId) (g : VNode → VNode)
    (hg : ∀ n, (g n).face = n.face) :
    (updNode verts v g).map (·.face) = verts.map (·.face) := by
  unfold updNode
  cases h : verts[v]? with
  | none => rfl
  | some n =>
    apply List.ext_getElem?
    intro i
    rw [List.map_set]
    rcases eq_or_ne v i with rfl | hne
    · rw [List.getElem?_set_self (by simpa using (List.getElem?_eq_some.mp h).1), hg,
        List.getElem?_map, h]
      rfl
    · rw [List.getElem?_set_ne hne]

/-! ## Claim C2 -/

/-- C2 (amended): with fewer than 4 points, `setFromPoints` returns the
instance entirely unchanged — so a fresh instance has an empty face list,
but an instance that previously computed a hull keeps its old faces — and
`containsPoint` on a hull whose face list is empty returns `true` (not
`false`) for every query point, since the loop body never runs. -/
theorem setFromPoints_lt4_unchanged (s : HullState) (points : List Vec3) (fuel : Nat)
    (h : points.length < 4) :
    setFromPoints s points fuel = some s ∧
    (s.faces = [] → ∀ p, containsPoint s p = true) := by
  constructor
  · unfold setFromPoints
    rw [if_neg (by omega)]
  · intro hf p
    unfold containsPoint
    rw [hf]
    rfl

/-- Witness for `setFromPoints_lt4_unchanged` at a concrete instance. -/
theorem setFromPoints_lt4_unchanged_witness :
    setFromPoints ConvexHull.init [⟨9, 9, 9⟩] 20 = some ConvexHull.init ∧
    (ConvexHull.init.faces = [] → ∀ p, containsPoint ConvexHull.init p = true) :=
  setFromPoints_lt4_unchanged ConvexHull.init [⟨9, 9, 9⟩] 20 (by decide)

unseal Rat.add Rat.mul Rat.inv Rat.sub Rat.ofScientific in
/-- C2 counterexample: the claim as stated is false on both counts.  A
fresh instance fed a single point keeps its empty face list but
`containsPoint` then returns `true` for the query point `(9,9,9)`, not
`false`; and an instance that previously computed the tetrahedron hull of
`tetPoints` (face list `[0,1,2,3]`) retains that non-empty face list after
`setFromPoints` with a single point, because the `points.length >= 4` guard
skips `makeEmpty()` as well. -/
theorem setFromPoints_lt4_claim_false :
    containsPoint ConvexHull.init ⟨9, 9, 9⟩ = true ∧
    setFromPoints ConvexHull.init [⟨9, 9, 9⟩] 20 = some ConvexHull.init ∧
    ((setFromPoints ConvexHull.init tetPoints 20).bind
      (fun s1 => setFromPoints s1 [⟨9, 9, 9⟩] 20)).map (·.faces) = some [0, 1, 2, 3] := by
  refine ⟨rfl, by decide, ?_⟩
  decide

/-! ## Claim C10 -/

/-- C10: `VertexList.remove(vertex)` is a frame-local operation: the
removed vertex's own record — in particular its `prev` and `next` fields —
is left unchanged (callers iterating `vertex.next` after removal rely on
this), and every node other than the two neighbours `vertex.prev` and
`vertex.next` is untouched; only the neighbours' links and the list's
`head`/`tail` are updated. -/
theorem vlRemove_frame (verts : List VNode) (l : VertexListRef) (v : VId) (vn : VNode)
    (hv : verts[v]? = some vn) (hp : vn.prev ≠ some v) (hn : vn.next ≠ some v) :
    (vlRemove verts l v).1[v]? = some vn ∧
    ∀ w : VId, vn.prev ≠ some w → vn.next ≠ some w →
      (vlRemove verts l v).1[w]? = verts[w]? := by
  have hres : ∀ w : VId, vn.prev ≠ some w → vn.next ≠ some w →
      (vlRemove verts l v).1[w]? = verts[w]? := by
    intro w hw1 hw2
    unfold vlRemove
    cases hvp : vn.prev with
    | none =>
      cases hvn : vn.next with
      | none =>
        simp only [hv, hvp, hvn]
      | some nx =>
        have h2 : nx ≠ w := fun e => hw2 (hvn.trans (congrArg some e))
        simp only [hv, hvp, hvn]
        exact updNode_getElem_ne _ _ _ _ h2
    | some p =>
      have hpv : p ≠ v := fun e => hp (hvp.trans (congrArg some e))
      have h1 : p ≠ w := fun e => hw1 (hvp.trans (congrArg some e))
      simp only [hv, hvp]
      rw [updNode_getElem_ne _ _ _ _ hpv, hv]
      cases hvn : vn.next with
      | none =>
        simp only [hvn]
        exact updNode_getElem_ne _ _ _ _ h1
      | some nx =>
        have h2 : nx ≠ w := fun e => hw2 (hvn.trans (congrArg some e))
        simp only [hvn]
        rw [updNode_getElem_ne _ _ _ _ h2, updNode_getElem_ne _ _ _ _ h1]
  exact ⟨(hres v hp hn).trans hv, hres⟩

/-! ## Claim C3 -/

theorem vlAppend_faces (verts : List VNode) (l : VertexListRef) (x : VId) :
    (vlAppend verts l x).1.map (·.face) = verts.map (·.face) := by
  unfold vlAppend
  cases hh : l.head <;> cases ht : l.tail <;> simp [hh, ht, updNode_faces]

theorem vlInsertBefore_faces (verts : List VNode) (l : VertexListRef) (target x : VId) :
    (vlInsertBefore verts l target x).1.map (·.face) = verts.map (·.face) := by
  unfold vlInsertBefore
  cases h : verts[target]? with
  | none => rfl
  | some tn =>
    cases htp : tn.prev <;> simp [h, htp, updNode_faces]

theorem vlRemove_faces (verts : List VNode) (l : VertexListRef) (x : VId) :
    (vlRemove verts l x).1.map (·.face) = verts.map (·.face) := by
  unfold vlRemove
  cases h : verts[x]? with
  | none => rfl
  | some vn =>
    cases hvp : vn.prev with
    | none =>
      cases hvn : vn.next with
      | none => simp [h, hvp, hvn]
      | some nx => simp [h, hvp, hvn, updNode_faces]
    | some p =>
      cases h2 : (updNode verts p (fun n => { n with next := vn.next }))[x]? with
      | none => simp [h, hvp, h2, updNode_faces]
      | some vn1 =>
        cases hvn1 : vn1.next with
        | none => simp [h, hvp, h2, hvn1, updNode_faces]
        | some nx => simp [h, hvp, h2, hvn1, updNode_faces]

/-- C3 (amended): `_addVertexToFace` establishes the link — it sets the
vertex's `face` reference to the target face and installs the vertex as the
face's `outside` head when inserting it into the 'assigned' list — but the
operations that take vertices out of the 'assigned' list write no vertex's
`face` field at all: after `_removeVertexFromFace` every vertex (the removed
one included) keeps exactly the `face` reference it had, so a removed vertex
retains a stale non-null `face` and the "non-null iff in 'assigned'"
equivalence does not hold in reachable states. -/
theorem updV_faceStore (s : HullState) (v : VId) (g : VNode → VNode) :
    (s.updV v g).faceStore = s.faceStore := rfl

theorem updFace_verts (s : HullState) (fid : FId) (g : FaceRec → FaceRec) :
    (s.updFace fid g).verts = s.verts := by
  unfold HullState.updFace
  cases s.faceStore[fid]? <;> rfl

/-- The `face` fields after `_addVertexToFace(v, f)`: only vertex `v`'s is
written (to `f`); the list insertion touches no `face` field. -/
theorem addVertexToFace_verts_faces (s : HullState) (v : VId) (f : FId) :
    (addVertexToFace s v f).verts.map (·.face) =
      (updNode s.verts v (fun m => { m with face := some f })).map (·.face) := by
  unfold addVertexToFace
  cases hbr : (((s.updV v (fun m => { m with face := some f })).faceStore[f]?).bind (·.outside)) with
  | none =>
    simp only [hbr]
    rw [updFace_verts]
    exact vlAppend_faces _ _ _
  | some o =>
    simp only [hbr]
    rw [updFace_verts]
    exact vlInsertBefore_faces _ _ _ _

theorem addVertexToFace_removeVertexFromFace_face_refs (s : HullState) (v : VId) (f : FId)
    (hv : v < s.verts.length) :
    ((addVertexToFace s v f).verts[v]?).map (·.face) = some (some f) ∧
    ((addVertexToFace s v f).faceStore[f]?).map (·.outside) =
      (s.faceStore[f]?).map (fun _ => some v) ∧
    ∀ (w : VId) (g : FId),
      (removeVertexFromFace s w g).verts.map (·.face) = s.verts.map (·.face) := by
  refine ⟨?_, ?_, ?_⟩
  · have hn : s.verts[v]? = some s.verts[v] := List.getElem?_eq_getElem hv
    rw [← List.getElem?_map, addVertexToFace_verts_faces, List.getElem?_map,
      updNode_getElem_self _ _ _ _ hn]
    rfl
  · unfold addVertexToFace
    cases hbr : (((s.updV v (fun m => { m with face := some f })).faceStore[f]?).bind (·.outside)) with
    | none =>
      simp only [hbr]
      unfold HullState.updFace
      simp only [updV_faceStore]
      cases hf2 : s.faceStore[f]? with
      | none => simp [hf2]
      | some fr =>
        have hlt := (List.getElem?_eq_some.mp hf2).1
        simp [hf2, updV_faceStore, List.getElem?_set_self hlt]
    | some o =>
      simp only [hbr]
      unfold HullState.updFace
      simp only [updV_faceStore]
      cases hf2 : s.faceStore[f]? with
      | none => simp [hf2]
      | some fr =>
        have hlt := (List.getElem?_eq_some.mp hf2).1
        simp [hf2, updV_faceStore, List.getElem?_set_self hlt]
  · intro w g
    unfold removeVertexFromFace
    split
    · split
      · split
        · rw [vlRemove_faces, updFace_verts]
        · rw [vlRemove_faces, updFace_verts]
      · rw [vlRemove_faces, updFace_verts]
    · rw [vlRemove_faces]

/-- A minimal state (three unlinked vertices, one blank face) used by
witnesses. -/
def miniState : HullState :=
  { verts := [{ point := ⟨0, 0, 0⟩ }, { point := ⟨1, 0, 0⟩ }, { point := ⟨0, 1, 0⟩ }],
    faceStore := [{}] }

/-- Witness for `addVertexToFace_removeVertexFromFace_face_refs` on
`miniState` at vertex 0 and face 0. -/
theorem addVertexToFace_removeVertexFromFace_face_refs_witness :
    ((addVertexToFace miniState 0 0).verts[0]?).map (·.face) = some (some 0) ∧
    ((addVertexToFace miniState 0 0).faceStore[0]?).map (·.outside) =
      (miniState.faceStore[0]?).map (fun _ => some 0) ∧
    ∀ (w : VId) (g : FId),
      (removeVertexFromFace miniState w g).verts.map (·.face) =
        miniState.verts.map (·.face) :=
  addVertexToFace_removeVertexFromFace_face_refs miniState 0 0 (by decide)

unseal Rat.add Rat.mul Rat.inv Rat.sub Rat.ofScientific in
/-- C3 counterexample: a reachable state in which a vertex outside the
'assigned' list has a non-null `face` reference.  On the five-point input,
after the initial tetrahedron the only assigned vertex is vertex 3 (with
`face` reference face 0) and `_nextVertexToAdd` picks it; the
`_removeVertexFromFace` call at the start of `_addVertexToHull` then
empties the 'assigned' list while vertex 3's `face` reference still points
at face 0 — so "face non-null iff in 'assigned'" fails, and the removal
did not restore it (the reference is only overwritten by a later
`_addVertexToFace`). -/
theorem vertex_face_iff_assigned_false :
    ((computeInitialHull (hullStart ConvexHull.init fivePoints)).bind
        (fun s1 => nextVertexToAdd s1 20)) = some (some 3) ∧
    ((computeInitialHull (hullStart ConvexHull.init fivePoints)).bind
        (fun s1 => addVertexToHullPrefix s1 3)).map
      (fun s2 => (s2.assigned.head, s2.assigned.tail, s2.verts.map (·.face))) =
      some (none, none, [none, none, none, some 0, none]) := by
  constructor
  · decide
  · decide

/-! ## Claim C4 -/

theorem containsPointLoop_eq_true_iff (s : HullState) (p : Vec3) (l : List FId) :
    containsPointLoop s p l = true ↔
      ∀ fid ∈ l, ∀ f, s.faceStore[fid]? = some f →
        faceDistanceToPoint f p ≤ s.tolerance := by
  induction l with
  | nil => simp [containsPointLoop]
  | cons hd tl ih =>
    cases h : s.faceStore[hd]? with
    | none =>
      simp only [containsPointLoop, h]
      rw [ih]
      constructor
      · intro ha fid hmem f hf
        rcases List.mem_cons.mp hmem with rfl | hmem'
        · rw [h] at hf
          cases hf
        · exact ha fid hmem' f hf
      · intro ha fid hmem f hf
        exact ha fid (List.mem_cons_of_mem _ hmem) f hf
    | some fr =>
      simp only [containsPointLoop, h]
      by_cases hd2 : faceDistanceToPoint fr p > s.tolerance
      · rw [if_pos hd2]
        refine iff_of_false (by simp) ?_
        intro ha
        exact absurd (ha hd (List.mem_cons_self _ _) fr h) (not_le.mpr hd2)
      · rw [if_neg hd2, ih]
        constructor
        · intro ha fid hmem f hf
          rcases List.mem_cons.mp hmem with rfl | hmem'
          · rw [h] at hf
            injection hf with e
            rw [← e]
            exact not_lt.mp hd2
          · exact ha fid hmem' f hf
        · intro ha fid hmem f hf
          exact ha fid (List.mem_cons_of_mem _ hmem) f hf

/-- C4: `containsPoint(point)` returns `true` if and only if every face of
the hull satisfies `distanceToPoint(face, point) ≤ tolerance`; the loop
returns `false` exactly when some face sees the point beyond `tolerance`. -/
theorem containsPoint_iff_all_faces (s : HullState) (p : Vec3) :
    containsPoint s p = true ↔
      ∀ fid ∈ s.faces, ∀ f, s.faceStore[fid]? = some f →
        faceDistanceToPoint f p ≤ s.tolerance :=
  containsPointLoop_eq_true_iff s p s.faces

/-! ## Claim C5 -/

theorem tGtOpt_slabStep_mono (origin dir : Vec3) (f : FaceRec) (acc : Option ℚ × Option ℚ)
    (h : tGtOpt acc.1 acc.2 = true) :
    tGtOpt (slabStep origin dir f acc).1 (slabStep origin dir f acc).2 = true := by
  obtain ⟨a1, a2⟩ := acc
  cases a1 with
  | none => simp [tGtOpt] at h
  | some tn =>
    cases a2 with
    | none => simp [tGtOpt] at h
    | some tf =>
      have hgt : tf < tn := by simpa [tGtOpt] using h
      simp only [slabStep]
      by_cases ht : (if f.normal.dot dir ≠ 0
          then -(faceDistanceToPoint f origin) / f.normal.dot dir else 0) ≤ 0
      · rw [if_pos ht]
        exact h
      · rw [if_neg ht]
        by_cases hvd : f.normal.dot dir > 0
        · simp only [if_pos hvd, tGtOpt, decide_eq_true_eq]
          exact lt_of_le_of_lt (min_le_right _ _) hgt
        · simp only [if_neg hvd, tGtOpt, decide_eq_true_eq]
          exact lt_of_lt_of_le hgt (le_max_right _ _)

theorem slabFold_cons (s : HullState) (origin dir : Vec3) (fid : FId) (tl : List FId)
    (acc : Option ℚ × Option ℚ) :
    slabFold s origin dir (fid :: tl) acc =
      slabFold s origin dir tl
        (match s.faceStore[fid]? with
         | none => acc
         | some f => slabStep origin dir f acc) := rfl

theorem tGtOpt_slabFold_mono (s : HullState) (origin dir : Vec3) :
    ∀ (l : List FId) (acc : Option ℚ × Option ℚ), tGtOpt acc.1 acc.2 = true →
      tGtOpt (slabFold s origin dir l acc).1 (slabFold s origin dir l acc).2 = true := by
  intro l
  induction l with
  | nil =>
    intro acc h
    exact h
  | cons fid tl ih =>
    intro acc h
    rw [slabFold_cons]
    cases hl : s.faceStore[fid]? with
    | none =>
      simp only [hl]
      exact ih acc h
    | some f =>
      simp only [hl]
      exact ih _ (tGtOpt_slabStep_mono origin dir f acc h)

/-- The common tail of the `intersectRay` loop body once a face's slab
update `(tN, tF)` has been computed: early exit on `tN > tF`, otherwise
continue — characterised against the exit-free fold. -/
theorem slabLoopTail (s : HullState) (origin dir : Vec3) (fid : FId) (tl : List FId)
    (acc : Option ℚ × Option ℚ) (f : FaceRec)
    (hl : s.faceStore[fid]? = some f)
    (hm : rayMissFaceB s origin dir fid = false)
    (hih : ∀ (acc2 : Option ℚ × Option ℚ), tGtOpt acc2.1 acc2.2 = false →
      intersectRayLoop s origin dir acc2.1 acc2.2 tl =
        if (tl.any (rayMissFaceB s origin dir) ||
            tGtOpt (slabFold s origin dir tl acc2).1 (slabFold s origin dir tl acc2).2) = true
        then none
        else some (slabPoint origin dir (slabFold s origin dir tl acc2)))
    (tN tF : Option ℚ)
    (hstepEq : slabStep origin dir f acc = (tN, tF)) :
    (if tGtOpt tN tF = true then none
     else intersectRayLoop s origin dir tN tF tl) =
      if ((fid :: tl).any (rayMissFaceB s origin dir) ||
          tGtOpt (slabFold s origin dir (fid :: tl) acc).1
                 (slabFold s origin dir (fid :: tl) acc).2) = true
      then none
      else some (slabPoint origin dir (slabFold s origin dir (fid :: tl) acc)) := by
  cases hgt : tGtOpt tN tF with
  | true =>
    rw [if_pos rfl]
    have hmono := tGtOpt_slabFold_mono s origin dir tl (slabStep origin dir f acc)
      (by rw [hstepEq]; simpa using hgt)
    rw [hstepEq] at hmono
    rw [if_pos (by
      rw [slabFold_cons]
      simp [hl, hstepEq, hmono])]
  | false =>
    rw [if_neg (by simp [hgt])]
    have hrec := hih (tN, tF) (by simpa using hgt)
    dsimp only at hrec
    rw [hrec, slabFold_cons]
    simp only [hl, hstepEq, List.any_cons, hm, Bool.false_or]

theorem intersectRayLoop_characterization (s : HullState) (origin dir : Vec3) :
    ∀ (l : List FId) (acc : Option ℚ × Option ℚ), tGtOpt acc.1 acc.2 = false →
      intersectRayLoop s origin dir acc.1 acc.2 l =
        if (l.any (rayMissFaceB s origin dir) ||
            tGtOpt (slabFold s origin dir l acc).1 (slabFold s origin dir l acc).2) = true
        then none
        else some (slabPoint origin dir (slabFold s origin dir l acc)) := by
  intro l
  induction l with
  | nil =>
    intro acc h
    rw [if_neg (by simp [slabFold, h])]
    rfl
  | cons fid tl ih =>
    intro acc h
    cases hl : s.faceStore[fid]? with
    | none =>
      have hm : rayMissFaceB s origin dir fid = false := by
        simp [rayMissFaceB, hl]
      simp only [intersectRayLoop, hl]
      rw [ih acc h, slabFold_cons]
      simp only [hl, List.any_cons, hm, Bool.false_or]
    | some f =>
      have hstep : (match s.faceStore[fid]? with
          | none => acc
          | some g => slabStep origin dir g acc) = slabStep origin dir f acc := by
        rw [hl]
      simp only [intersectRayLoop, hl]
      split
      next hmiss =>
        have hm : rayMissFaceB s origin dir fid = true := by
          simp [rayMissFaceB, hl, hmiss.1, hmiss.2]
        rw [if_pos (by simp [List.any_cons, hm])]
      next hmiss =>
        have hm : rayMissFaceB s origin dir fid = false := by
          simp only [rayMissFaceB, hl]
          exact decide_eq_false hmiss
        split
        next hvd =>
          split
          next htle =>
            have hs : slabStep origin dir f acc = acc := by
              simp only [slabStep]
              rw [if_pos hvd]
              exact if_pos htle
            rw [ih acc h, slabFold_cons, hstep, hs]
            simp only [List.any_cons, hm, Bool.false_or]
          next htle =>
            refine slabLoopTail s origin dir fid tl acc f hl hm ih _ _ ?_
            simp only [slabStep]
            rw [if_pos hvd, if_neg htle]
        next hvd =>
          rw [if_pos (le_refl (0 : ℚ))]
          have hs : slabStep origin dir f acc = acc := by
            simp only [slabStep]
            rw [if_neg hvd]
            exact if_pos (le_refl (0 : ℚ))
          rw [ih acc h, slabFold_cons, hstep, hs]
          simp only [List.any_cons, hm, Bool.false_or]

/-- C5: `intersectRay` returns no intersection (`none`) exactly when some
face is a definite miss — the ray origin strictly on its outward side while
the direction is turned away from or parallel to it — or the running
maximum entry parameter `tNear` exceeds the running minimum exit parameter
`tFar` (`tGtOpt` over the exit-free fold of the per-face slab updates, the
early exit being equivalent by monotonicity of the slab interval);
otherwise it returns the point on the ray at parameter `tNear` when `tNear`
is finite, else at `tFar` (`slabPoint`). -/
theorem intersectRay_characterization (s : HullState) (origin dir : Vec3) :
    intersectRay s origin dir =
      if (s.faces.any (rayMissFaceB s origin dir) ||
          tGtOpt (slabFold s origin dir s.faces (none, none)).1
                 (slabFold s origin dir s.faces (none, none)).2) = true
      then none
      else some (slabPoint origin dir (slabFold s origin dir s.faces (none, none))) := by
  have h := intersectRayLoop_characterization s origin dir s.faces (none, none) rfl
  simpa [intersectRay] using h

/-! ## Claims C6 and C8: face creation -/

theorem getElem?_concat3_0 {α : Type} (l : List α) (x y z : α) :
    (l ++ [x, y, z])[l.length]? = some x := by
  rw [List.getElem?_append_right (le_refl _)]
  simp

theorem getElem?_concat3_1 {α : Type} (l : List α) (x y z : α) :
    (l ++ [x, y, z])[l.length + 1]? = some y := by
  rw [List.getElem?_append_right (by omega)]
  simp

theorem getElem?_concat3_2 {α : Type} (l : List α) (x y z : α) :
    (l ++ [x, y, z])[l.length + 2]? = some z := by
  rw [List.getElem?_append_right (by omega)]
  simp

/-- What `Face.create(a, b, c)` builds, in closed form: one face whose base
edge is the first of three freshly allocated half-edges in a closed
`next`/`prev` cycle with no twin links, and whose plane data comes from
`Face.compute` — which reads the corners as `(edge.tail(), edge.head(),
edge.next.head()) = (c, a, b)`, a cyclic rotation of the creation order. -/
theorem faceCreate_eq (s : HullState) (a b c : VId) (pa pb pc : Vec3)
    (hpa : s.vpoint a = some pa) (hpb : s.vpoint b = some pb) (hpc : s.vpoint c = some pc) :
    faceCreate s a b c = some
      ({ s with
          faceStore := (s.faceStore ++ [({ edge := some s.edgeStore.length } : FaceRec)]).set
            s.faceStore.length
            { normal := triNormal pc pa pb,
              midpoint := triMidpoint pc pa pb,
              constant := (triNormal pc pa pb).dot (triMidpoint pc pa pb),
              outside := none, mark := Mark.Visible, edge := some s.edgeStore.length },
          edgeStore := s.edgeStore ++
            [{ vertex := a, face := s.faceStore.length, next := some (s.edgeStore.length + 1),
               prev := some (s.edgeStore.length + 2) },
             { vertex := b, face := s.faceStore.length, next := some (s.edgeStore.length + 2),
               prev := some s.edgeStore.length },
             { vertex := c, face := s.faceStore.length, next := some s.edgeStore.length,
               prev := some (s.edgeStore.length + 1) }] },
       s.faceStore.length) := by
  simp only [HullState.vpoint] at hpa hpb hpc
  unfold faceCreate faceCompute halfEdgeTail halfEdgeHead
  simp only [getElem?_concat3_0, getElem?_concat3_1, getElem?_concat3_2,
    List.getElem?_concat_length, HullState.vpoint, Option.bind_eq_bind, Option.some_bind,
    Option.map_some]
  simp only [HullState.updFace]
  simp only [getElem?_concat3_0, getElem?_concat3_1, getElem?_concat3_2,
    List.getElem?_concat_length]
  simp [hpa, hpb, hpc]

/-- C6: for the face built by `Face.create`, `distanceToPoint(face, p)`
equals `normal · p − constant`, the stored `midpoint` is the centroid
`(pa + pb + pc) / 3` of the three corner points, and the plane `constant`
computed by `Face.compute` equals `normal · midpoint`. -/
theorem faceCreate_distance_and_constant (s s' : HullState) (a b c : VId) (fid : FId)
    (pa pb pc : Vec3) (f : FaceRec)
    (hpa : s.vpoint a = some pa) (hpb : s.vpoint b = some pb) (hpc : s.vpoint c = some pc)
    (h : faceCreate s a b c = some (s', fid)) (hf : s'.faceStore[fid]? = some f) :
    (∀ p, faceDistanceToPoint f p = f.normal.dot p - f.constant) ∧
    f.midpoint = Vec3.smul (1 / 3) ((pa.add pb).add pc) ∧
    f.constant = f.normal.dot f.midpoint := by
  have he := (h.symm.trans (faceCreate_eq s a b c pa pb pc hpa hpb hpc))
  obtain ⟨he1, he2⟩ := Prod.mk.injEq .. ▸ Option.some.inj he
  subst he1 he2
  rw [List.getElem?_set_self (by simp)] at hf
  obtain rfl := Option.some.inj hf
  refine ⟨fun p => rfl, ?_, rfl⟩
  simp only [triMidpoint, Vec3.add, Vec3.smul, Vec3.mk.injEq]
  refine ⟨by ring, by ring, by ring⟩

/-- Three unlinked vertices spanning a right triangle, for witnesses. -/
def triState : HullState :=
  { verts := [{ point := ⟨0, 0, 0⟩ }, { point := ⟨1, 0, 0⟩ }, { point := ⟨0, 1, 0⟩ }] }

/-- The state `Face.create(0, 1, 2)` produces from `triState`. -/
def triState' : HullState :=
  { verts := triState.verts,
    faceStore := [{ normal := ⟨0, 0, 1⟩, midpoint := ⟨1 / 3, 1 / 3, 0⟩, constant := 0,
                    outside := none, mark := Mark.Visible, edge := some 0 }],
    edgeStore := [{ vertex := 0, prev := some 2, next := some 1, twin := none, face := 0 },
                  { vertex := 1, prev := some 0, next := some 2, twin := none, face := 0 },
                  { vertex := 2, prev := some 1, next := some 0, twin := none, face := 0 }] }

/-- The face record `Face.create(0, 1, 2)` computes from `triState`. -/
def triFaceRec : FaceRec :=
  { normal := ⟨0, 0, 1⟩, midpoint := ⟨1 / 3, 1 / 3, 0⟩, constant := 0, edge := some 0 }

unseal Rat.add Rat.mul Rat.inv Rat.sub Rat.ofScientific in
/-- Witness for `faceCreate_distance_and_constant` on `triState`. -/
theorem faceCreate_distance_and_constant_witness :
    (∀ p, faceDistanceToPoint triFaceRec p = triFaceRec.normal.dot p - triFaceRec.constant) ∧
    triFaceRec.midpoint = Vec3.smul (1 / 3) ((Vec3.add ⟨0, 0, 0⟩ ⟨1, 0, 0⟩).add ⟨0, 1, 0⟩) ∧
    triFaceRec.constant = triFaceRec.normal.dot triFaceRec.midpoint :=
  faceCreate_distance_and_constant triState triState' 0 1 2 0 ⟨0, 0, 0⟩ ⟨1, 0, 0⟩ ⟨0, 1, 0⟩
    triFaceRec (by decide) (by decide) (by decide) (by decide) (by decide)

theorem updEdge_getElem_ne (s : HullState) (e w : EId) (g : HalfEdgeRec → HalfEdgeRec)
    (h : e ≠ w) : (s.updEdge e g).edgeStore[w]? = s.edgeStore[w]? := by
  unfold HullState.updEdge
  cases s.edgeStore[e]? <;> simp [List.getElem?_set_ne h]

theorem updEdge_getElem_self (s : HullState) (e : EId) (g : HalfEdgeRec → HalfEdgeRec)
    (r : HalfEdgeRec) (h : s.edgeStore[e]? = some r) :
    (s.updEdge e g).edgeStore[e]? = some (g r) := by
  unfold HullState.updEdge
  rw [h]
  exact List.getElem?_set_self (List.getElem?_eq_some.mp h).1

/-- C8 (amended): `Face.create` allocates exactly three half-edges, wired
into the closed `next`/`prev` cycle `e0 → e1 → e2 → e0` over the new face
with all twin links unset; and `setTwin` writes both twin references at
once, so the two edges it links are mutually reciprocal
(`edge.twin.twin = edge` for that pair) immediately afterwards.  (Edges of
faces marked `Deleted` can still hold stale twin references in reachable
mid-construction states; see the counterexample.) -/
theorem faceCreate_wiring_and_setTwin (s s' : HullState) (a b c : VId) (fid : FId)
    (pa pb pc : Vec3)
    (hpa : s.vpoint a = some pa) (hpb : s.vpoint b = some pb) (hpc : s.vpoint c = some pc)
    (h : faceCreate s a b c = some (s', fid)) :
    s'.edgeStore.length = s.edgeStore.length + 3 ∧
    (s'.faceStore[fid]?).map (·.edge) = some (some s.edgeStore.length) ∧
    (s'.edgeStore[s.edgeStore.length]?).map (fun e => (e.vertex, e.next, e.prev, e.twin)) =
      some (a, some (s.edgeStore.length + 1), some (s.edgeStore.length + 2), none) ∧
    (s'.edgeStore[s.edgeStore.length + 1]?).map (fun e => (e.vertex, e.next, e.prev, e.twin)) =
      some (b, some (s.edgeStore.length + 2), some s.edgeStore.length, none) ∧
    (s'.edgeStore[s.edgeStore.length + 2]?).map (fun e => (e.vertex, e.next, e.prev, e.twin)) =
      some (c, some s.edgeStore.length, some (s.edgeStore.length + 1), none) ∧
    ∀ (t : HullState) (e1 e2 : EId) (r1 r2 : HalfEdgeRec),
      t.edgeStore[e1]? = some r1 → t.edgeStore[e2]? = some r2 →
      ((setTwin t e1 e2).edgeStore[e1]?).map (·.twin) = some (some e2) ∧
      ((setTwin t e1 e2).edgeStore[e2]?).map (·.twin) = some (some e1) := by
  have he := (h.symm.trans (faceCreate_eq s a b c pa pb pc hpa hpb hpc))
  obtain ⟨he1, he2⟩ := Prod.mk.injEq .. ▸ Option.some.inj he
  subst he1 he2
  refine ⟨by simp, ?_, ?_, ?_, ?_, ?_⟩
  · rw [List.getElem?_set_self (by simp)]
    rfl
  · rw [getElem?_concat3_0]
    rfl
  · rw [getElem?_concat3_1]
    rfl
  · rw [getElem?_concat3_2]
    rfl
  · intro t e1 e2 r1 r2 h1 h2
    unfold setTwin
    rcases eq_or_ne e1 e2 with rfl | hne
    · have hs1 : (t.updEdge e1 (fun r => { r with twin := some e1 })).edgeStore[e1]? =
          some { r1 with twin := some e1 } := updEdge_getElem_self _ _ _ _ h1
      constructor <;> rw [updEdge_getElem_self _ _ _ _ hs1] <;> rfl
    · constructor
      · rw [updEdge_getElem_ne _ _ _ _ hne.symm, updEdge_getElem_self _ _ _ _ h1]
        rfl
      · have h2' : (t.updEdge e1 (fun r => { r with twin := some e2 })).edgeStore[e2]? =
            some r2 := by
          rw [updEdge_getElem_ne _ _ _ _ hne]
          exact h2
        rw [updEdge_getElem_self _ _ _ _ h2']
        rfl

unseal Rat.add Rat.mul Rat.inv Rat.sub Rat.ofScientific in
/-- Witness for `faceCreate_wiring_and_setTwin` on `triState`. -/
theorem faceCreate_wiring_and_setTwin_witness :
    triState'.edgeStore.length = triState.edgeStore.length + 3 ∧
    (triState'.faceStore[0]?).map (·.edge) = some (some triState.edgeStore.length) ∧
    (triState'.edgeStore[triState.edgeStore.length]?).map
        (fun e => (e.vertex, e.next, e.prev, e.twin)) =
      some (0, some (triState.edgeStore.length + 1), some (triState.edgeStore.length + 2), none) ∧
    (triState'.edgeStore[triState.edgeStore.length + 1]?).map
        (fun e => (e.vertex, e.next, e.prev, e.twin)) =
      some (1, some (triState.edgeStore.length + 2), some triState.edgeStore.length, none) ∧
    (triState'.edgeStore[triState.edgeStore.length + 2]?).map
        (fun e => (e.vertex, e.next, e.prev, e.twin)) =
      some (2, some triState.edgeStore.length, some (triState.edgeStore.length + 1), none) ∧
    ∀ (t : HullState) (e1 e2 : EId) (r1 r2 : HalfEdgeRec),
      t.edgeStore[e1]? = some r1 → t.edgeStore[e2]? = some r2 →
      ((setTwin t e1 e2).edgeStore[e1]?).map (·.twin) = some (some e2) ∧
      ((setTwin t e1 e2).edgeStore[e2]?).map (·.twin) = some (some e1) :=
  faceCreate_wiring_and_setTwin triState triState' 0 1 2 0 ⟨0, 0, 0⟩ ⟨1, 0, 0⟩ ⟨0, 1, 0⟩
    (by decide) (by decide) (by decide) (by decide)

unseal Rat.add Rat.mul Rat.inv Rat.sub Rat.ofScientific in
/-- C8 counterexample: the universal invariant "every linked half-edge
satisfies `edge.twin.twin === edge` in every reachable hull state" is
false.  On the five-point input, `_compute` picks vertex 3 and
`_addVertexToHull` re-twins each horizon edge's old twin with a new face's
closing edge (`_addAdjoiningFace`); afterwards edge 1 — an edge of face 0,
which is marked `Deleted` but still present in `this.faces` until
re-indexing — still has `twin = 5` while edge 5's twin now points at edge
20, so `edge.twin.twin ≠ edge` for edge 1 in a reachable state. -/
theorem twin_twin_claim_false :
    ((computeInitialHull (hullStart ConvexHull.init fivePoints)).bind
        (fun s1 => nextVertexToAdd s1 20)) = some (some 3) ∧
    ((computeInitialHull (hullStart ConvexHull.init fivePoints)).bind
        (fun s1 => addVertexToHull s1 3 20)).map
      (fun s2 => ((s2.edgeStore[1]?).map (·.twin), (s2.edgeStore[5]?).map (·.twin),
                  (s2.faceStore[0]?).map (·.mark), s2.faces)) =
      some (some (some 5), some (some 20), some Mark.Deleted, [0, 1, 2, 3, 4, 5, 6, 7]) := by
  constructor
  · decide
  · decide

/-! ## Claim C7 -/

theorem ite_lt_min (a b : ℚ) : (if b < a then b else a) = min a b := by
  rcases lt_or_ge b a with h | h
  · rw [if_pos h, min_eq_right h.le]
  · rw [if_neg (not_lt.mpr h), min_eq_left h]

theorem ite_gt_max (a b : ℚ) : (if b > a then b else a) = max a b := by
  rcases lt_or_ge a b with h | h
  · rw [if_pos h, max_eq_right h.le]
  · rw [if_neg (not_lt.mpr h), max_eq_left h]

theorem updMin3_fst (mn : Vec3) (mnV : VId × VId × VId) (pt : Vec3) (vid : VId) :
    (updMin3 mn mnV pt vid).1 = ⟨min mn.x pt.x, min mn.y pt.y, min mn.z pt.z⟩ := by
  unfold updMin3
  simp only [List.foldl_cons, List.foldl_nil, Vec3.get, Vec3.set]
  rw [← ite_lt_min mn.x pt.x, ← ite_lt_min mn.y pt.y, ← ite_lt_min mn.z pt.z]
  split_ifs <;> simp_all [Vec3.get, Vec3.set]

theorem updMax3_fst (mx : Vec3) (mxV : VId × VId × VId) (pt : Vec3) (vid : VId) :
    (updMax3 mx mxV pt vid).1 = ⟨max mx.x pt.x, max mx.y pt.y, max mx.z pt.z⟩ := by
  unfold updMax3
  simp only [List.foldl_cons, List.foldl_nil, Vec3.get, Vec3.set]
  rw [← ite_gt_max mx.x pt.x, ← ite_gt_max mx.y pt.y, ← ite_gt_max mx.z pt.z]
  split_ifs <;> simp_all [Vec3.get, Vec3.set]

theorem extremesLoop_cons (s : HullState) (v : VId) (tl : List VId) (mn mx : Vec3)
    (mnV mxV : VId × VId × VId) :
    extremesLoop s (v :: tl) (mn, mx, mnV, mxV) =
      (s.vpoint v).bind (fun pt =>
        extremesLoop s tl ((updMin3 mn mnV pt v).1, (updMax3 mx mxV pt v).1,
          (updMin3 mn mnV pt v).2, (updMax3 mx mxV pt v).2)) := rfl

theorem extremesLoop_spec (s : HullState) :
    ∀ (l : List VId) (pts : List Vec3), l.map s.vpoint = pts.map some →
    ∀ (mn mx : Vec3) (mnV mxV : VId × VId × VId), ∃ mnV' mxV',
      extremesLoop s l (mn, mx, mnV, mxV) = some
        (⟨pts.foldl (fun a p => min a p.x) mn.x,
          pts.foldl (fun a p => min a p.y) mn.y,
          pts.foldl (fun a p => min a p.z) mn.z⟩,
         ⟨pts.foldl (fun a p => max a p.x) mx.x,
          pts.foldl (fun a p => max a p.y) mx.y,
          pts.foldl (fun a p => max a p.z) mx.z⟩, mnV', mxV') := by
  intro l
  induction l with
  | nil =>
    intro pts hpts mn mx mnV mxV
    have : pts = [] := by
      cases pts with
      | nil => rfl
      | cons a b => simp at hpts
    subst this
    exact ⟨mnV, mxV, rfl⟩
  | cons v tl ih =>
    intro pts hpts mn mx mnV mxV
    cases pts with
    | nil => simp at hpts
    | cons p pt =>
      simp only [List.map_cons, List.cons.injEq] at hpts
      obtain ⟨hv, htl⟩ := hpts
      obtain ⟨mnV', mxV', hrec⟩ := ih pt htl ⟨min mn.x p.x, min mn.y p.y, min mn.z p.z⟩
        ⟨max mx.x p.x, max mx.y p.y, max mx.z p.z⟩
        ((updMin3 mn mnV p v).2) ((updMax3 mx mxV p v).2)
      refine ⟨mnV', mxV', ?_⟩
      rw [extremesLoop_cons, hv, Option.some_bind, updMin3_fst, updMax3_fst, hrec]
      simp [List.foldl_cons]

/-- C7: on a non-empty vertex list, `_computeExtremes` succeeds and sets
`tolerance = 3 · machineEps · (max(|min.x|, |max.x|) + max(|min.y|, |max.y|)
+ max(|min.z|, |max.z|))`, where the per-axis `min`/`max` are the
componentwise bounding extremes of all wrapped points (folds starting from
the first point, exactly as the source's scan); nothing else of the state
changes, so this stored `tolerance` field is the value every later
outside-classification (`distance > this.tolerance` in the initial
assignment, horizon walk, vertex reassignment and `containsPoint`) reads. -/
theorem computeExtremes_tolerance (s : HullState) (p0 : Vec3) (rest : List Vec3)
    (hmap : s.vertices.map s.vpoint = (p0 :: rest).map some) :
    ∃ s' mnV mxV, computeExtremes s = some (s', mnV, mxV) ∧
      s'.tolerance = 3 * machineEps *
        (max |(p0 :: rest).foldl (fun a p => min a p.x) p0.x|
             |(p0 :: rest).foldl (fun a p => max a p.x) p0.x| +
         max |(p0 :: rest).foldl (fun a p => min a p.y) p0.y|
             |(p0 :: rest).foldl (fun a p => max a p.y) p0.y| +
         max |(p0 :: rest).foldl (fun a p => min a p.z) p0.z|
             |(p0 :: rest).foldl (fun a p => max a p.z) p0.z|) ∧
      s'.faces = s.faces ∧ s'.vertices = s.vertices ∧ s'.verts = s.verts ∧
      s'.faceStore = s.faceStore ∧ s'.edgeStore = s.edgeStore ∧
      s'.assigned = s.assigned ∧ s'.unassigned = s.unassigned := by
  have hex : ∃ v0 vtl, s.vertices = v0 :: vtl := by
    cases hv : s.vertices with
    | nil =>
      rw [hv] at hmap
      simp at hmap
    | cons v0 vtl => exact ⟨v0, vtl, rfl⟩
  obtain ⟨v0, vtl, hl⟩ := hex
  rw [hl] at hmap
  have hmap2 := hmap
  simp only [List.map_cons, List.cons.injEq] at hmap2
  obtain ⟨hv0, -⟩ := hmap2
  obtain ⟨mnV', mxV', hloop⟩ := extremesLoop_spec s (v0 :: vtl) (p0 :: rest) hmap
    p0 p0 (v0, v0, v0) (v0, v0, v0)
  refine ⟨{ s with tolerance := 3 * machineEps *
      (max |(p0 :: rest).foldl (fun a p => min a p.x) p0.x|
           |(p0 :: rest).foldl (fun a p => max a p.x) p0.x| +
       max |(p0 :: rest).foldl (fun a p => min a p.y) p0.y|
           |(p0 :: rest).foldl (fun a p => max a p.y) p0.y| +
       max |(p0 :: rest).foldl (fun a p => min a p.z) p0.z|
           |(p0 :: rest).foldl (fun a p => max a p.z) p0.z|) },
    mnV', mxV', ?_, ?_, ?_, ?_, ?_, ?_, ?_, ?_, ?_⟩
  · unfold computeExtremes
    rw [hl]
    simp only [List.head?_cons, Option.bind_eq_bind, Option.some_bind]
    rw [hv0]
    simp only [Option.some_bind]
    rw [hloop]
    simp only [Option.some_bind]
  all_goals rfl

unseal Rat.add Rat.mul Rat.inv Rat.sub Rat.ofScientific in
/-- Witness for `computeExtremes_tolerance` on the tetrahedron input. -/
theorem computeExtremes_tolerance_witness :
    ∃ s' mnV mxV,
      computeExtremes (hullStart ConvexHull.init tetPoints) = some (s', mnV, mxV) ∧
      s'.tolerance = 3 * machineEps *
        (max |((⟨0, 0, 0⟩ : Vec3) :: [(⟨4, 0, 0⟩ : Vec3), ⟨0, 4, 0⟩, ⟨0, 0, 4⟩]).foldl
                (fun a p => min a p.x) (0 : ℚ)|
             |((⟨0, 0, 0⟩ : Vec3) :: [(⟨4, 0, 0⟩ : Vec3), ⟨0, 4, 0⟩, ⟨0, 0, 4⟩]).foldl
                (fun a p => max a p.x) (0 : ℚ)| +
         max |((⟨0, 0, 0⟩ : Vec3) :: [(⟨4, 0, 0⟩ : Vec3), ⟨0, 4, 0⟩, ⟨0, 0, 4⟩]).foldl
                (fun a p => min a p.y) (0 : ℚ)|
             |((⟨0, 0, 0⟩ : Vec3) :: [(⟨4, 0, 0⟩ : Vec3), ⟨0, 4, 0⟩, ⟨0, 0, 4⟩]).foldl
                (fun a p => max a p.y) (0 : ℚ)| +
         max |((⟨0, 0, 0⟩ : Vec3) :: [(⟨4, 0, 0⟩ : Vec3), ⟨0, 4, 0⟩, ⟨0, 0, 4⟩]).foldl
                (fun a p => min a p.z) (0 : ℚ)|
             |((⟨0, 0, 0⟩ : Vec3) :: [(⟨4, 0, 0⟩ : Vec3), ⟨0, 4, 0⟩, ⟨0, 0, 4⟩]).foldl
                (fun a p => max a p.z) (0 : ℚ)|) ∧
      s'.faces = (hullStart ConvexHull.init tetPoints).faces ∧
      s'.vertices = (hullStart ConvexHull.init tetPoints).vertices ∧
      s'.verts = (hullStart ConvexHull.init tetPoints).verts ∧
      s'.faceStore = (hullStart ConvexHull.init tetPoints).faceStore ∧
      s'.edgeStore = (hullStart ConvexHull.init tetPoints).edgeStore ∧
      s'.assigned = (hullStart ConvexHull.init tetPoints).assigned ∧
      s'.unassigned = (hullStart ConvexHull.init tetPoints).unassigned :=
  computeExtremes_tolerance (hullStart ConvexHull.init tetPoints) ⟨0, 0, 0⟩
    [⟨4, 0, 0⟩, ⟨0, 4, 0⟩, ⟨0, 0, 4⟩] (by decide)

/-! ## Claim C9 -/

/-- The contiguous outside run of face `f` starting at vertex `v`. -/
def outsideRun (s : HullState) (f : FId) : Nat → VId → Option (List VId)
  | 0, _ => none
  | fuel + 1, v =>
    match (s.verts[v]?).bind (·.next) with
    | some nx =>
      if (s.verts[nx]?).bind (·.face) = some f then
        (outsideRun s f fuel nx).map (v :: ·)
      else some [v]
    | none => some [v]

/-- The signed distance from face data `fr` to the point of vertex `u`. -/
def distOf (s : HullState) (fr : FaceRec) (u : VId) : Option ℚ :=
  (s.vpoint u).map (faceDistanceToPoint fr)

theorem argmaxFold (d : VId → ℚ) :
    ∀ (l : List VId) (m : ℚ) (e : Option VId),
      (∀ u ∈ l, d u ≤ (l.foldl (fun acc u => if d u > acc.1 then (d u, some u) else acc) (m, e)).1) ∧
      m ≤ (l.foldl (fun acc u => if d u > acc.1 then (d u, some u) else acc) (m, e)).1 ∧
      (((l.foldl (fun acc u => if d u > acc.1 then (d u, some u) else acc) (m, e)).2 = e ∧
        (l.foldl (fun acc u => if d u > acc.1 then (d u, some u) else acc) (m, e)).1 = m) ∨
        ∃ w ∈ l, (l.foldl (fun acc u => if d u > acc.1 then (d u, some u) else acc) (m, e)).2 = some w ∧
          d w = (l.foldl (fun acc u => if d u > acc.1 then (d u, some u) else acc) (m, e)).1) := by
  intro l
  induction l with
  | nil =>
    intro m e
    simp
  | cons u tl ih =>
    intro m e
    simp only [List.foldl_cons]
    by_cases hu : d u > m
    · rw [if_pos hu]
      obtain ⟨iha, ihb, ihc⟩ := ih (d u) (some u)
      refine ⟨?_, ?_, ?_⟩
      · intro x hx
        rcases List.mem_cons.mp hx with rfl | hx'
        · exact ihb
        · exact iha x hx'
      · exact le_trans hu.le ihb
      · rcases ihc with ⟨h2, h1⟩ | ⟨w, hw, h2, h1⟩
        · exact Or.inr ⟨u, List.mem_cons_self _ _, h2, h1.symm⟩
        · exact Or.inr ⟨w, List.mem_cons_of_mem _ hw, h2, h1⟩
      
    · rw [if_neg hu]
      obtain ⟨iha, ihb, ihc⟩ := ih m e
      refine ⟨?_, ihb, ?_⟩
      · intro x hx
        rcases List.mem_cons.mp hx with rfl | hx'
        · exact le_trans (not_lt.mp hu) ihb
        · exact iha x hx'
      · rcases ihc with ⟨h2, h1⟩ | ⟨w, hw, h2, h1⟩
        · exact Or.inl ⟨h2, h1⟩
        · exact Or.inr ⟨w, List.mem_cons_of_mem _ hw, h2, h1⟩

theorem nextScan_eq_fold (s : HullState) (f : FId) (fr : FaceRec)
    (hfr : s.faceStore[f]? = some fr) :
    ∀ (fuel : Nat) (v : VId) (run : List VId),
      outsideRun s f fuel v = some run →
      (∀ u ∈ run, (distOf s fr u).isSome = true) →
      ∀ (maxD : ℚ) (eye : Option VId),
        nextScan s f fuel v maxD eye =
          some ((run.foldl (fun acc u =>
            if (distOf s fr u).getD 0 > acc.1 then ((distOf s fr u).getD 0, some u) else acc)
            (maxD, eye)).2) := by
  intro fuel
  induction fuel with
  | zero =>
    intro v run h
    simp [outsideRun] at h
  | succ fuel ih =>
    intro v run hrun hall maxD eye
    simp only [outsideRun] at hrun
    cases hnext : (s.verts[v]?).bind (·.next) with
    | none =>
      simp only [hnext] at hrun
      obtain rfl := Option.some.inj hrun
      have hv := hall v (List.mem_singleton.mpr rfl)
      obtain ⟨pt, hpt⟩ : ∃ pt, s.vpoint v = some pt := by
        cases h : s.vpoint v with
        | none => rw [distOf, h] at hv; cases hv
        | some pt => exact ⟨pt, rfl⟩
      have hdist : (distOf s fr v).getD 0 = faceDistanceToPoint fr pt := by
        simp [distOf, hpt]
      simp only [nextScan, hpt, hfr, Option.bind_eq_bind, Option.some_bind, hnext,
        List.foldl_cons, List.foldl_nil, hdist]
    | some nx =>
      simp only [hnext] at hrun
      by_cases hface : (s.verts[nx]?).bind (·.face) = some f
      · rw [if_pos hface] at hrun
        cases hrec : outsideRun s f fuel nx with
        | none =>
          rw [hrec] at hrun
          cases hrun
        | some run2 =>
          rw [hrec] at hrun
          simp at hrun
          subst hrun
          have hv := hall v (List.mem_cons_self _ _)
          obtain ⟨pt, hpt⟩ : ∃ pt, s.vpoint v = some pt := by
            cases h : s.vpoint v with
            | none => rw [distOf, h] at hv; cases hv
            | some pt => exact ⟨pt, rfl⟩
          have hdist : (distOf s fr v).getD 0 = faceDistanceToPoint fr pt := by
            simp [distOf, hpt]
          have hall2 : ∀ u ∈ run2, (distOf s fr u).isSome = true := by
            intro u hu
            exact hall u (List.mem_cons_of_mem _ hu)
          simp only [nextScan, hpt, hfr, Option.bind_eq_bind, Option.some_bind, hnext,
            if_pos hface, List.foldl_cons, hdist]
          by_cases hd : faceDistanceToPoint fr pt > maxD
          · simp only [if_pos hd, ih nx run2 hrec hall2]
          · simp only [if_neg hd, ih nx run2 hrec hall2]
      · rw [if_neg hface] at hrun
        obtain rfl := Option.some.inj hrun
        have hv := hall v (List.mem_singleton.mpr rfl)
        obtain ⟨pt, hpt⟩ : ∃ pt, s.vpoint v = some pt := by
          cases h : s.vpoint v with
          | none => rw [distOf, h] at hv; cases hv
          | some pt => exact ⟨pt, rfl⟩
        have hdist : (distOf s fr v).getD 0 = faceDistanceToPoint fr pt := by
          simp [distOf, hpt]
        simp only [nextScan, hpt, hfr, Option.bind_eq_bind, Option.some_bind, hnext,
          if_neg hface, List.foldl_cons, List.foldl_nil, hdist]

/-- C9: whenever the 'assigned' list is non-empty, `_nextVertexToAdd` scans
only the contiguous outside run of the first assigned vertex's face (the
face's `outside` head, which the partition invariant makes the head of
'assigned') and — provided some vertex of that run has positive signed
distance — returns a vertex of that run whose distance to that face's plane
is maximal over the run, not the globally farthest vertex over all faces. -/
theorem nextVertexToAdd_picks_run_argmax (s : HullState) (fuel : Nat) (v0 : VId) (f : FId)
    (fr : FaceRec) (run : List VId)
    (h0 : s.assigned.head = some v0)
    (hf : (s.verts[v0]?).bind (·.face) = some f)
    (hfr : s.faceStore[f]? = some fr)
    (ho : fr.outside = some v0)
    (hrun : outsideRun s f fuel v0 = some run)
    (hall : ∀ u ∈ run, (distOf s fr u).isSome = true)
    (hpos : ∃ u ∈ run, ∃ du, distOf s fr u = some du ∧ 0 < du) :
    ∃ w, nextVertexToAdd s fuel = some (some w) ∧ w ∈ run ∧
      ∀ u ∈ run, ∀ du dw, distOf s fr u = some du → distOf s fr w = some dw → du ≤ dw := by
  have hov : (s.faceStore[f]?).bind (·.outside) = some v0 := by
    rw [hfr]
    exact ho
  have hnva : nextVertexToAdd s fuel = nextScan s f fuel v0 0 none := by
    simp only [nextVertexToAdd, h0, hf, hov, Option.bind_eq_bind, Option.some_bind]
  have hscan := nextScan_eq_fold s f fr hfr fuel v0 run hrun hall 0 none
  obtain ⟨ha, hb, hc⟩ := argmaxFold (fun u => (distOf s fr u).getD 0) run 0 none
  obtain ⟨u, hu, du, hdu, hdupos⟩ := hpos
  have hdu' : (distOf s fr u).getD 0 = du := by rw [hdu]; rfl
  have hpos1 : 0 < (run.foldl (fun acc x =>
      if (distOf s fr x).getD 0 > acc.1 then ((distOf s fr x).getD 0, some x) else acc)
      (0, none)).1 := lt_of_lt_of_le hdupos (hdu' ▸ ha u hu)
  rcases hc with ⟨-, h1⟩ | ⟨w, hw, h2, h1⟩
  · rw [h1] at hpos1
    exact absurd hpos1 (lt_irrefl 0)
  · refine ⟨w, ?_, hw, ?_⟩
    · rw [hnva, hscan, h2]
    · intro x hx dx dw hdx hdw
      have hdx' : (distOf s fr x).getD 0 = dx := by rw [hdx]; rfl
      have hdw' : (distOf s fr w).getD 0 = dw := by rw [hdw]; rfl
      calc dx = (distOf s fr x).getD 0 := hdx'.symm
        _ ≤ _ := ha x hx
        _ = (distOf s fr w).getD 0 := h1.symm
        _ = dw := hdw'

/-- A two-vertex assigned run over one face, used to witness C9: vertex 0 at
distance 1 and vertex 1 at distance 3 from the face plane `z = 0`. -/
def scanState : HullState :=
  { tolerance := 0,
    verts := [{ point := ⟨0, 0, 1⟩, next := some 1, face := some 0 },
              { point := ⟨0, 0, 3⟩, prev := some 0, face := some 0 }],
    faceStore := [{ normal := ⟨0, 0, 1⟩, constant := 0, outside := some 0 }],
    assigned := { head := some 0, tail := some 1 } }

/-- The single face record of `scanState`. -/
def scanFace : FaceRec :=
  { normal := ⟨0, 0, 1⟩, constant := 0, outside := some 0 }

unseal Rat.add Rat.mul Rat.inv Rat.sub Rat.ofScientific in
/-- Witness for `nextVertexToAdd_picks_run_argmax` on `scanState` (the
chosen vertex is vertex 1, the farther of the run). -/
theorem nextVertexToAdd_picks_run_argmax_witness :
    ∃ w, nextVertexToAdd scanState 5 = some (some w) ∧ w ∈ [0, 1] ∧
      ∀ u ∈ [0, 1], ∀ du dw,
        distOf scanState scanFace u = some du → distOf scanState scanFace w = some dw →
          du ≤ dw :=
  nextVertexToAdd_picks_run_argmax scanState 5 0 0 scanFace [0, 1]
    (by decide) (by decide) (by decide) (by decide) (by decide) (by decide) (by decide)

/-- A three-node chain `0 ↔ 1 ↔ 2` used to witness `vlRemove_frame`. -/
def chain3 : List VNode :=
  [{ point := ⟨0, 0, 0⟩, prev := none, next := some 1 },
   { point := ⟨1, 0, 0⟩, prev := some 0, next := some 2 },
   { point := ⟨2, 0, 0⟩, prev := some 1, next := none }]

/-- Witness for `vlRemove_frame`: removing the middle node of `chain3`. -/
theorem vlRemove_frame_witness :
    (vlRemove chain3 ⟨some 0, some 2⟩ 1).1[1]? =
      some { point := ⟨1, 0, 0⟩, prev := some 0, next := some 2 } ∧
    ∀ w : VId, (some 0 : Option VId) ≠ some w → (some 2 : Option VId) ≠ some w →
      (vlRemove chain3 ⟨some 0, some 2⟩ 1).1[w]? = chain3[w]? :=
  vlRemove_frame chain3 ⟨some 0, some 2⟩ 1
    { point := ⟨1, 0, 0⟩, prev := some 0, next := some 2 } (by decide) (by decide) (by decide)

end UMD
